import Mathlib

/-!
Verification development for the CLIST contest-calendar pipeline
(`clist_to_ics.py`, `clist_build.py`): resource-filter resolution, paginated
fetching, contest parsing, deduplication and `.ics` serialization.

Python strings are modelled as `List Char` (over the ASCII range actually used
by the program), Python `int` as `Int`, fallible code as `Except`/`Option`.
-/

namespace Clist

/-- Convert a Lean string literal to the `List Char` representation used
throughout this development. -/
def lstr (s : String) : List Char := s.toList

/-- ASCII whitespace recognised by Python's `str.strip()` (the inputs of this
program are ASCII). -/
def isPyWs (c : Char) : Bool :=
  c = ' ' || c = '\t' || c = '\n' || c = '\r' || c = Char.ofNat 11 || c = Char.ofNat 12

/-- Python `str.strip()`: drop leading and trailing whitespace. -/
def pyStripChars (s : List Char) : List Char :=
  ((s.dropWhile isPyWs).reverse.dropWhile isPyWs).reverse

/-- Decimal value of a digit list, most significant first. -/
def natOfDigits (cs : List Char) : Nat :=
  cs.foldl (fun a c => a * 10 + (c.toNat - 48)) 0

/-- Decimal rendering of a natural number (Python `str(n)` for `n >= 0`). -/
def natRepr (n : Nat) : List Char := (Nat.repr n).toList

/-- Decimal rendering of an integer (Python `str(n)` / f-string interpolation). -/
def intRepr (n : Int) : List Char :=
  if n < 0 then '-' :: natRepr n.natAbs else natRepr n.natAbs

/-- Zero-pad a decimal rendering to width `w` (as `strftime` does). -/
def padz (w : Nat) (n : Nat) : List Char :=
  List.replicate (w - (natRepr n).length) '0' ++ natRepr n

/-- All-digit check plus conversion: `some` value iff `cs` is a non-empty run
of ASCII digits. -/
def digitsVal (cs : List Char) : Option Nat :=
  if cs.isEmpty then none
  else if cs.all Char.isDigit then some (natOfDigits cs) else none

/-- Python `int(s)` on a string: strip whitespace, optional sign, digits;
`none` models the `ValueError` raised otherwise. -/
def pyIntOfString (s : List Char) : Option Int :=
  match pyStripChars s with
  | '+' :: rest => (digitsVal rest).map (fun n => (n : Int))
  | '-' :: rest => (digitsVal rest).map (fun n => -(n : Int))
  | t => (digitsVal t).map (fun n => (n : Int))

/-! ### Datetime model

Python `datetime.datetime`: broken-down civil fields plus an optional fixed
UTC offset in minutes (`none` models a naive value).  Microseconds are not
carried: no observable output of this program depends on them. -/

structure PyDatetime where
  year : Nat
  month : Nat
  day : Nat
  hour : Nat
  minute : Nat
  second : Nat
  offset : Option Int
deriving DecidableEq, Repr

/-- Proleptic-Gregorian day count from civil date (days since 1970-01-01),
the arithmetic used by CPython's `datetime` ordinal conversions. -/
def daysFromCivil (y m d : Int) : Int :=
  let y := y - (if m ≤ 2 then 1 else 0)
  let era := Int.fdiv y 400
  let yoe := y - era * 400
  let mp := Int.fmod (m + 9) 12
  let doy := Int.fdiv (153 * mp + 2) 5 + d - 1
  let doe := yoe * 365 + Int.fdiv yoe 4 - Int.fdiv yoe 100 + doy
  era * 146097 + doe - 719468

/-- Inverse of `daysFromCivil`: civil date from days since 1970-01-01. -/
def civilFromDays (z : Int) : Int × Int × Int :=
  let z := z + 719468
  let era := Int.fdiv z 146097
  let doe := z - era * 146097
  let yoe := Int.fdiv (doe - Int.fdiv doe 1460 + Int.fdiv doe 36524 - Int.fdiv doe 146096) 365
  let y := yoe + era * 400
  let doy := doe - (365 * yoe + Int.fdiv yoe 4 - Int.fdiv yoe 100)
  let mp := Int.fdiv (5 * doy + 2) 153
  let d := doy - Int.fdiv (153 * mp + 2) 5 + 1
  let m := mp + (if mp < 10 then 3 else -9)
  (y + (if m ≤ 2 then 1 else 0), m, d)

/-- Seconds since the epoch of the civil fields (offset ignored). -/
def toEpochSecs (v : PyDatetime) : Int :=
  daysFromCivil v.year v.month v.day * 86400
    + (v.hour : Int) * 3600 + (v.minute : Int) * 60 + (v.second : Int)

/-- Civil fields from seconds since the epoch, attaching offset `off`. -/
def fromEpochSecs (n : Int) (off : Option Int) : PyDatetime :=
  let days := Int.fdiv n 86400
  let sod := (n - days * 86400).toNat
  let c := civilFromDays days
  ⟨c.1.toNat, c.2.1.toNat, c.2.2.toNat, sod / 3600, sod % 3600 / 60, sod % 60, off⟩

/-- `value.astimezone(datetime.timezone.utc)` on an aware value with fixed
offset `o` minutes: CPython returns the value unchanged when it is already at
UTC, and otherwise shifts the civil fields by exact calendar arithmetic
(`(self - offset)` re-tagged UTC).  This program never calls it on a naive
value (`ensure_utc` and `parse_iso_datetime` attach a zone first); the naive
case is left as the identity. -/
def astimezoneUTC (v : PyDatetime) : PyDatetime :=
  match v.offset with
  | none => v
  | some o =>
    if o = 0 then { v with offset := some 0 }
    else fromEpochSecs (toEpochSecs v - 60 * o) (some 0)

/-- Source `ensure_utc`: a naive value is re-tagged UTC without shifting; an
aware value is converted to UTC. -/
def ensure_utc (v : PyDatetime) : PyDatetime :=
  match v.offset with
  | none => { v with offset := some 0 }
  | some _ => astimezoneUTC v

/-- The instant (seconds since epoch) denoted by an aware value; a naive value
is read as UTC. -/
def instantSecs (v : PyDatetime) : Int :=
  toEpochSecs v - 60 * v.offset.getD 0

/-- Leap-year test of the Gregorian calendar. -/
def isLeapYear (y : Nat) : Bool :=
  y % 4 = 0 && (y % 100 ≠ 0 || y % 400 = 0)

/-- Days in a month, as validated by the `datetime` constructor. -/
def daysInMonth (y m : Nat) : Nat :=
  if m = 2 then (if isLeapYear y then 29 else 28)
  else if m = 4 || m = 6 || m = 9 || m = 11 then 30
  else 31

/-- Field validation performed by the `datetime` constructor
(`MINYEAR = 1`, `MAXYEAR = 9999`). -/
def validFields (y mo d h mi s : Nat) : Bool :=
  1 ≤ y && y ≤ 9999 && 1 ≤ mo && mo ≤ 12 && 1 ≤ d && d ≤ daysInMonth y mo
    && h ≤ 23 && mi ≤ 59 && s ≤ 59

/-! ### `datetime.fromisoformat` and the `strptime` fallback -/

/-- Consume exactly `k` digits, returning their value and the rest. -/
def exactDigits (k : Nat) (cs : List Char) : Option (Nat × List Char) :=
  let pre := cs.take k
  if pre.length = k ∧ pre.all Char.isDigit then some (natOfDigits pre, cs.drop k)
  else none

/-- Consume between 1 and `k` digits (greedy), as `strptime` numeric
directives do. -/
def upToDigits (k : Nat) (cs : List Char) : Option (Nat × List Char) :=
  let pre := (cs.take k).takeWhile Char.isDigit
  if pre.isEmpty then none else some (natOfDigits pre, cs.drop pre.length)

/-- Consume one expected literal character. -/
def expectChar (c : Char) (cs : List Char) : Option (List Char) :=
  match cs with
  | d :: rest => if d = c then some rest else none
  | [] => none

/-- Parse the optional fixed-offset suffix `±HH:MM` of an ISO string,
returning the offset in minutes.  `datetime.timezone` requires a magnitude
strictly below 24 hours. -/
def parseIsoOffset (cs : List Char) : Option Int :=
  match cs with
  | sign :: rest =>
    if sign = '+' ∨ sign = '-' then do
      let (oh, r1) ← exactDigits 2 rest
      let r2 ← expectChar ':' r1
      let (om, r3) ← exactDigits 2 r2
      if r3.isEmpty ∧ om ≤ 59 ∧ oh * 60 + om ≤ 1439 then
        some (if sign = '-' then -((oh * 60 + om : Nat) : Int) else ((oh * 60 + om : Nat) : Int))
      else none
    else none
  | [] => none

/-- Time-of-day tail `HH[:MM[:SS[.ffffff]]]` of an ISO string, fractions
accepted and discarded; returns `(hour, minute, second, rest)`. -/
def parseIsoTime (cs : List Char) : Option (Nat × Nat × Nat × List Char) := do
  let (h, r1) ← exactDigits 2 cs
  match expectChar ':' r1 with
  | none => some (h, 0, 0, r1)
  | some r2 => do
    let (mi, r3) ← exactDigits 2 r2
    match expectChar ':' r3 with
    | none => some (h, mi, 0, r3)
    | some r4 => do
      let (s, r5) ← exactDigits 2 r4
      match r5 with
      | '.' :: r6 =>
        let frac := r6.takeWhile Char.isDigit
        if 1 ≤ frac.length ∧ frac.length ≤ 6 then some (h, mi, s, r6.drop frac.length)
        else none
      | _ => some (h, mi, s, r5)

/-- Model of `datetime.datetime.fromisoformat` on the shapes this program
feeds it: `YYYY-MM-DD[<sep>HH[:MM[:SS[.ffffff]]][±HH:MM]]` with full field
validation (the trailing `Z` is rewritten to `+00:00` by the caller before
this runs). -/
def pyFromisoformat (cs : List Char) : Option PyDatetime := do
  let (y, r1) ← exactDigits 4 cs
  let r2 ← expectChar '-' r1
  let (mo, r3) ← exactDigits 2 r2
  let r4 ← expectChar '-' r3
  let (d, r5) ← exactDigits 2 r4
  match r5 with
  | [] =>
    if validFields y mo d 0 0 0 then some ⟨y, mo, d, 0, 0, 0, none⟩ else none
  | _sep :: r6 => do
    let (h, mi, s, r7) ← parseIsoTime r6
    if ¬ validFields y mo d h mi s then none
    else
      match r7 with
      | [] => some ⟨y, mo, d, h, mi, s, none⟩
      | _ => do
        let off ← parseIsoOffset r7
        some ⟨y, mo, d, h, mi, s, some off⟩

/-- Model of `datetime.strptime(value, "%Y-%m-%dT%H:%M:%S")`: numeric
directives take 1–4 (year) or 1–2 digits, literals must match exactly, the
whole string must be consumed, and the resulting fields are validated by the
`datetime` constructor. -/
def strptimeYmdHMS (cs : List Char) : Option PyDatetime := do
  let (y, r1) ← upToDigits 4 cs
  let r2 ← expectChar '-' r1
  let (mo, r3) ← upToDigits 2 r2
  let r4 ← expectChar '-' r3
  let (d, r5) ← upToDigits 2 r4
  let r6 ← expectChar 'T' r5
  let (h, r7) ← upToDigits 2 r6
  let r8 ← expectChar ':' r7
  let (mi, r9) ← upToDigits 2 r8
  let r10 ← expectChar ':' r9
  let (s, r11) ← upToDigits 2 r10
  if r11.isEmpty ∧ validFields y mo d h mi s then some ⟨y, mo, d, h, mi, s, none⟩
  else none

/-- Python exceptions distinguished by the fetch loop's `except ValueError`
clause: only `valueError` is caught there; `keyError` and `typeError`
propagate. -/
inductive PyErr where
  | valueError (msg : List Char)
  | keyError (key : List Char)
  | typeError (msg : List Char)
deriving DecidableEq, Repr

/-- Source `parse_iso_datetime`: rewrite a trailing `Z` to `+00:00`, try
`fromisoformat`, fall back to `strptime("%Y-%m-%dT%H:%M:%S")` tagged UTC,
raise `ValueError` if neither parses; a naive result is tagged UTC; the
result is converted to UTC. -/
def parse_iso_datetime (value : List Char) : Except PyErr PyDatetime :=
  let value := if value.getLast? = some 'Z' then value.dropLast ++ lstr "+00:00" else value
  match pyFromisoformat value with
  | some parsed =>
    let parsed := if parsed.offset.isNone then { parsed with offset := some 0 } else parsed
    .ok (astimezoneUTC parsed)
  | none =>
    match strptimeYmdHMS value with
    | some parsed => .ok (astimezoneUTC { parsed with offset := some 0 })
    | none => .error (.valueError (lstr "Unsupported datetime format: " ++ value))

/-! ### JSON payload values

Payload objects delivered by the API (`objects` array entries) are modelled
as association lists from keys to values; values cover the shapes the
program's field accesses can observe (`null`, integers, strings, nested
objects). -/

mutual

inductive PV where
  | pnull
  | pint (n : Int)
  | pstr (s : List Char)
  | pobj (fields : PFields)

inductive PFields where
  | nil
  | cons (k : List Char) (v : PV) (rest : PFields)

end

/-- `dict.get(k)` with default `None`. -/
def pGet (fs : PFields) (key : List Char) : PV :=
  match fs with
  | .nil => .pnull
  | .cons k v rest => if k = key then v else pGet rest key

/-- `dict[k]`: raises `KeyError` when the key is absent. -/
def pIndex (fs : PFields) (key : List Char) : Except PyErr PV :=
  match fs with
  | .nil => .error (.keyError key)
  | .cons k v rest => if k = key then .ok v else pIndex rest key

/-- Python truthiness of a payload value. -/
def pyTruthy : PV → Bool
  | .pnull => false
  | .pint n => n ≠ 0
  | .pstr s => !s.isEmpty
  | .pobj .nil => false
  | .pobj (.cons _ _ _) => true

/-- `a or b`: first operand if truthy, else second. -/
def orPV (a b : PV) : PV := if pyTruthy a then a else b

mutual

/-- Python `repr` of a payload value (`str` and `repr` agree except on
strings). -/
def pyRepr : PV → List Char
  | .pnull => lstr "None"
  | .pint n => intRepr n
  | .pstr s => Char.ofNat 39 :: s ++ [Char.ofNat 39]
  | .pobj fs => Char.ofNat 123 :: pyReprFields fs ++ [Char.ofNat 125]

/-- Comma-separated `'key': value` entries of a dict repr. -/
def pyReprFields : PFields → List Char
  | .nil => []
  | .cons k v .nil => Char.ofNat 39 :: k ++ [Char.ofNat 39] ++ lstr ": " ++ pyRepr v
  | .cons k v (.cons k2 v2 rest) =>
    Char.ofNat 39 :: k ++ [Char.ofNat 39] ++ lstr ": " ++ pyRepr v
      ++ lstr ", " ++ pyReprFields (.cons k2 v2 rest)

end

/-- Python `str()` of a payload value. -/
def pyStr : PV → List Char
  | .pstr s => s
  | v => pyRepr v

/-- Python `int()` of a payload value: integers pass through, strings are
parsed (else `ValueError`), `None` and dicts raise `TypeError`. -/
def pyInt : PV → Except PyErr Int
  | .pint n => .ok n
  | .pstr s =>
    match pyIntOfString s with
    | some n => .ok n
    | none => .error (.valueError (lstr "invalid literal for int() with base 10: " ++ s))
  | .pnull => .error (.typeError (lstr "int() argument must be a string or a number, not NoneType"))
  | .pobj _ => .error (.typeError (lstr "int() argument must be a string or a number, not dict"))

/-! ### Contest records and `parse_contest` -/

/-- The frozen `Contest` dataclass (`end` is spelt `end_`). -/
structure Contest where
  contest_id : Int
  title : List Char
  start : PyDatetime
  end_ : PyDatetime
  url : List Char
  resource_id : Int
  resource_name : List Char
deriving DecidableEq, Repr

/-- The nested resource dict when the `resource` field is a dict, else empty
(`resource_field if isinstance(resource_field, dict) else {}`). -/
def resourceInfoOf (resourceField : PV) : PFields :=
  match resourceField with
  | .pobj fs => fs
  | _ => .nil

/-- Source `parse_contest`, field for field:
`contest_id = int(payload["id"])`;
`title = str(event or title or f"Contest {id}").strip()`;
`start`/`end` via `parse_iso_datetime(str(...))`;
`url` from `href`/`event_url`/`url`/`""`;
`resource_id = int(resource_id or resource["id"] or 0)`;
`resource_name` from the nested resource object's `name`/`short_name`/`host`,
else the raw resource field, else `f"Resource {resource_id}"`.
A step raising an exception short-circuits, in source order. -/
def parse_contest (payload : PFields) : Except PyErr Contest :=
  match pIndex payload (lstr "id") with
  | .error e => .error e
  | .ok idv =>
    match pyInt idv with
    | .error e => .error e
    | .ok contest_id =>
      let title := pyStr (orPV (pGet payload (lstr "event"))
        (orPV (pGet payload (lstr "title")) (.pstr (lstr "Contest " ++ intRepr contest_id))))
      match parse_iso_datetime (pyStr (pGet payload (lstr "start"))) with
      | .error e => .error e
      | .ok start =>
        match parse_iso_datetime (pyStr (pGet payload (lstr "end"))) with
        | .error e => .error e
        | .ok end_ =>
          let href := pyStr (orPV (pGet payload (lstr "href"))
            (orPV (pGet payload (lstr "event_url"))
              (orPV (pGet payload (lstr "url")) (.pstr []))))
          let resourceField := pGet payload (lstr "resource")
          match pyInt (orPV (pGet payload (lstr "resource_id"))
            (orPV (pGet (resourceInfoOf resourceField) (lstr "id")) (.pint 0))) with
          | .error e => .error e
          | .ok resource_id =>
            let resource_name := pyStr (orPV (pGet (resourceInfoOf resourceField) (lstr "name"))
              (orPV (pGet (resourceInfoOf resourceField) (lstr "short_name"))
                (orPV (pGet (resourceInfoOf resourceField) (lstr "host"))
                  (orPV resourceField (.pstr (lstr "Resource " ++ intRepr resource_id))))))
            .ok { contest_id := contest_id
                  title := pyStripChars title
                  start := start
                  end_ := end_
                  url := pyStripChars href
                  resource_id := resource_id
                  resource_name := pyStripChars resource_name }

/-- `Contest.duration` in whole seconds (`end - self.start`; Python datetime
subtraction is exact calendar arithmetic, and all timestamps of this program
are whole seconds). -/
def durationSecs (c : Contest) : Int :=
  instantSecs c.end_ - instantSecs c.start

/-- `Contest.summary`. -/
def summary (c : Contest) : List Char :=
  c.resource_name ++ lstr ": " ++ c.title

/-- Source `humanize_duration` on a duration of `d` whole seconds. -/
def humanize_duration (d : Int) : List Char :=
  let seconds : Nat := if d < 0 then 0 else d.toNat
  let hours := seconds / 3600
  let rem := seconds % 3600
  let minutes := rem / 60
  let secs := rem % 60
  let parts : List (List Char) :=
    (if hours ≠ 0 then [natRepr hours ++ ['h']] else [])
      ++ (if minutes ≠ 0 then [natRepr minutes ++ ['m']] else [])
  let parts := if secs ≠ 0 ∧ parts = [] then parts ++ [natRepr secs ++ ['s']] else parts
  if parts = [] then lstr "0m" else (parts.intersperse (lstr " ")).flatten

/-- `Contest.description`: title, platform, humanized duration, and the URL
line only when the URL is non-empty, joined by newlines. -/
def description (c : Contest) : List Char :=
  let ls : List (List Char) :=
    [lstr "Title: " ++ c.title,
     lstr "Platform: " ++ c.resource_name,
     lstr "Duration: " ++ humanize_duration (durationSecs c)]
      ++ (if c.url ≠ [] then [lstr "URL: " ++ c.url] else [])
  (ls.intersperse (lstr "\n")).flatten

/-! ### ICS serialization -/

/-- Python `str.replace(old, new)` for a single-character needle. -/
def replaceChar (old : Char) (new : List Char) (s : List Char) : List Char :=
  s.flatMap (fun c => if c = old then new else [c])

/-- Source `escape_ics_text`: substitute backslash, then semicolon, then
comma, then newline, in that order. -/
def escape_ics_text (s : List Char) : List Char :=
  replaceChar '\n' ['\\', 'n']
    (replaceChar ',' ['\\', ',']
      (replaceChar ';' ['\\', ';']
        (replaceChar '\\' ['\\', '\\'] s)))

/-- The segment list built by `fold_ics_line` before joining: the first 75
characters, then space-prefixed chunks of at most 74 characters. -/
def foldSegments (line : List Char) : List (List Char) :=
  line.take 75 :: foldRest (line.drop 75)
where
  /-- The `while remainder:` loop of `fold_ics_line`. -/
  foldRest : List Char → List (List Char)
    | [] => []
    | c :: cs => (' ' :: (c :: cs).take 74) :: foldRest ((c :: cs).drop 74)
  termination_by remainder => remainder.length
  decreasing_by
    simp only [List.length_drop, List.length_cons]
    omega

/-- Source `fold_ics_line`: a line of at most 75 characters is returned
unchanged, otherwise the segments are joined with CRLF. -/
def fold_ics_line (line : List Char) : List Char :=
  if line.length ≤ 75 then line
  else ((foldSegments line).intersperse (lstr "\r\n")).flatten

/-- `datetime.strftime` restricted to the directives of this program
(`%Y %m %d %H %M %S`, other characters literal). -/
def pyStrftime (v : PyDatetime) : List Char → List Char
  | '%' :: 'Y' :: rest => padz 4 v.year ++ pyStrftime v rest
  | '%' :: 'm' :: rest => padz 2 v.month ++ pyStrftime v rest
  | '%' :: 'd' :: rest => padz 2 v.day ++ pyStrftime v rest
  | '%' :: 'H' :: rest => padz 2 v.hour ++ pyStrftime v rest
  | '%' :: 'M' :: rest => padz 2 v.minute ++ pyStrftime v rest
  | '%' :: 'S' :: rest => padz 2 v.second ++ pyStrftime v rest
  | c :: rest => c :: pyStrftime v rest
  | [] => []

/-- Source `format_ics_datetime`: `ensure_utc(value).strftime("%Y%m%dT%H%M%SZ")`. -/
def format_ics_datetime (v : PyDatetime) : List Char :=
  pyStrftime (ensure_utc v) (lstr "%Y%m%dT%H%M%SZ")

/-- Source `generate_ics`: the full calendar text, lines joined by CRLF with
a trailing CRLF.  `now` is the generation timestamp (`datetime.now(utc)`). -/
def generate_ics (contests : List Contest) (calendar_name product_id : List Char)
    (now : PyDatetime) : List Char :=
  let headerLines : List (List Char) :=
    [lstr "BEGIN:VCALENDAR",
     fold_ics_line (lstr "PRODID:" ++ product_id),
     lstr "VERSION:2.0",
     lstr "CALSCALE:GREGORIAN",
     lstr "METHOD:PUBLISH"]
      ++ (if !calendar_name.isEmpty then
            [fold_ics_line (lstr "X-WR-CALNAME:" ++ escape_ics_text calendar_name)]
          else [])
  let eventLines := contests.flatMap (fun c =>
    [lstr "BEGIN:VEVENT",
     fold_ics_line (lstr "UID:" ++ intRepr c.contest_id ++ lstr "@clist.by"),
     fold_ics_line (lstr "DTSTAMP:" ++ format_ics_datetime now),
     fold_ics_line (lstr "DTSTART:" ++ format_ics_datetime c.start),
     fold_ics_line (lstr "DTEND:" ++ format_ics_datetime c.end_),
     fold_ics_line (lstr "SUMMARY:" ++ escape_ics_text (summary c)),
     fold_ics_line (lstr "DESCRIPTION:" ++ escape_ics_text (description c))]
      ++ (if !c.url.isEmpty then [fold_ics_line (lstr "URL:" ++ escape_ics_text c.url)] else [])
      ++ [fold_ics_line (lstr "CATEGORIES:" ++ escape_ics_text c.resource_name),
          lstr "END:VEVENT"])
  let ls := headerLines ++ eventLines ++ [lstr "END:VCALENDAR"]
  (ls.intersperse (lstr "\r\n")).flatten ++ lstr "\r\n"

/-! ### Deduplication and sorting -/

/-- One step of the dict build in `deduplicate_contests`: `by_id[k] = c`.
A Python dict keeps the original position of an existing key and overwrites
its value; a new key is appended. -/
def dictInsert (m : List (Int × Contest)) (k : Int) (c : Contest) : List (Int × Contest) :=
  if m.any (fun p => p.1 = k) then m.map (fun p => if p.1 = k then (k, c) else p)
  else m ++ [(k, c)]

/-- Source `deduplicate_contests`: build an insertion-ordered dict keyed by
`contest_id`, last write wins, and return its values. -/
def deduplicate_contests (contests : List Contest) : List Contest :=
  (contests.foldl (fun m c => dictInsert m c.contest_id c) []).map (fun p => p.2)

/-- The sort key comparison of `deduped.sort(key=lambda c: c.start)`: aware
datetimes compare by instant (every value this program sorts is UTC-aware). -/
def startLe (a b : Contest) : Prop :=
  instantSecs a.start ≤ instantSecs b.start

instance : DecidableRel startLe := fun x y => Int.decLe (instantSecs x.start) (instantSecs y.start)

instance : IsTotal Contest startLe := ⟨fun x y => Int.le_total (instantSecs x.start) (instantSecs y.start)⟩

instance : IsTrans Contest startLe := ⟨fun _ _ _ h1 h2 => le_trans h1 h2⟩

/-- `list.sort` with a key function is a stable sort; modelled by insertion
sort over the key comparison. -/
def sortByStart (contests : List Contest) : List Contest :=
  contests.insertionSort startLe

/-! ### Resource-filter resolution -/

/-- The resolved API filter: either `("resource", hostname)` or
`("resource_id", numeric id)`. -/
inductive RFilter where
  | resource (host : List Char)
  | resource_id (id : Int)
deriving DecidableEq, Repr

/-- The two `ClistApiError` shapes raised by `resolve_resource_filters`. -/
inductive FilterErr where
  | unresolvable (token : List Char)
  | noValid
deriving DecidableEq, Repr

/-- The `RESOURCE_ALIASES` table. -/
def RESOURCE_ALIASES : List (List Char × List Char) :=
  [(lstr "leetcode", lstr "leetcode.com"),
   (lstr "nowcoder", lstr "ac.nowcoder.com"),
   (lstr "nk", lstr "ac.nowcoder.com"),
   (lstr "lc", lstr "leetcode.com"),
   (lstr "codeforces", lstr "codeforces.com"),
   (lstr "cf", lstr "codeforces.com"),
   (lstr "atcoder", lstr "atcoder.jp"),
   (lstr "ac", lstr "atcoder.jp"),
   (lstr "luogu", lstr "luogu.com.cn"),
   (lstr "lg", lstr "luogu.com.cn")]

/-- `RESOURCE_ALIASES.get(token)`. -/
def aliasLookup (token : List Char) : Option (List Char) :=
  (RESOURCE_ALIASES.find? (fun p => p.1 = token)).map (fun p => p.2)

/-- Python `str.lower()` (ASCII). -/
def pyLower (s : List Char) : List Char := s.map Char.toLower

/-- Python `str.isdigit()` on the ASCII inputs of this program: non-empty and
all digits. -/
def pyIsdigit (s : List Char) : Bool := !s.isEmpty && s.all Char.isDigit

/-- The loop body of `resolve_resource_filters`, processing one stripped,
non-blank token. -/
def classifyToken (value : List Char) : Except FilterErr RFilter :=
  match aliasLookup (pyLower value) with
  | some host => .ok (.resource host)
  | none =>
    if pyIsdigit value then .ok (.resource_id (natOfDigits value))
    else if value.contains '.' then .ok (.resource value)
    else .error (.unresolvable value)

/-- Source `resolve_resource_filters`: strip each token, skip blanks,
classify (alias, all-digits, contains-dot, else error), deduplicate by
identity keeping first occurrences, and fail when nothing resolved. -/
def resolve_resource_filters (resources : List (List Char)) : Except FilterErr (List RFilter) :=
  go [] resources
where
  /-- The `for raw in resources:` loop carrying the `resolved` accumulator
  (the `seen` set is exactly the membership of `resolved`). -/
  go (resolved : List RFilter) : List (List Char) → Except FilterErr (List RFilter)
    | [] => if resolved = [] then .error .noValid else .ok resolved
    | raw :: rest =>
      let value := pyStripChars raw
      if value = [] then go resolved rest
      else
        match classifyToken value with
        | .error e => .error e
        | .ok kv => go (if kv ∈ resolved then resolved else resolved ++ [kv]) rest

/-! ### Paginated fetching (`fetch_contests_for_resource`)

The network layer is abstracted as a function from the `(offset, limit)`
query parameters to the decoded page (the `objects` array and the truthiness
of `meta.next`); the filter, credential and time-window parameters do not
vary across the loop and are absorbed into that function.  The loop is
instrumented with the trace of issued page requests, the accumulated
diagnostics of skipped records, and the condition that ended it; the
`while True:` loop is bounded by explicit fuel, `fuelOut` marking
exhaustion. -/

def PAGE_SIZE : Int := 100

structure Page where
  objects : List PFields
  hasNext : Bool

/-- Why `fetch_contests_for_resource` stopped. -/
inductive StopReason where
  | cap
  | emptyPage
  | noNext
  | fuelOut
deriving DecidableEq, Repr

structure FetchOut where
  contests : List Contest
  diags : List (List Char)
  trace : List (Nat × Int)
  reason : StopReason
deriving DecidableEq, Repr

/-- The diagnostic printed for one skipped record. -/
def skipMsg (m : List Char) : List Char :=
  lstr "Skipping contest due to parse error: " ++ m

/-- The `for payload in objects:` loop: a `ValueError` from `parse_contest`
is caught, its diagnostic recorded, and the next payload processed; other
exceptions propagate.  The boolean result marks the mid-page
`return fetched` taken when the cap is reached. -/
def pageLoop (L : Int) (fetched : List Contest) (diags : List (List Char)) :
    List PFields → Except PyErr (List Contest × List (List Char) × Bool)
  | [] => .ok (fetched, diags, false)
  | p :: rest =>
    match parse_contest p with
    | .error (.valueError m) => pageLoop L fetched (diags ++ [skipMsg m]) rest
    | .error e => .error e
    | .ok c =>
      if L ≠ 0 ∧ L ≤ ((fetched ++ [c]).length : Int) then .ok (fetched ++ [c], diags, true)
      else pageLoop L (fetched ++ [c]) diags rest

/-- The `limit` query parameter of one request: `PAGE_SIZE` when unlimited,
else `min(PAGE_SIZE, remaining)` where `remaining = L - len(fetched)`. -/
def pageLimit (L : Int) (fetchedLen : Nat) : Int :=
  if L = 0 then PAGE_SIZE else min PAGE_SIZE (L - (fetchedLen : Int))

/-- The `while True:` loop of `fetch_contests_for_resource`: compute the
remaining quota, break when a non-zero cap is exhausted (`remaining <= 0`,
which for `L ≠ 0` is `L - len(fetched) ≤ 0`), request a page of
`pageLimit` objects, break on an empty page, process its payloads, advance
the offset by the number of objects received, and continue while `meta.next`
is truthy. -/
def fetchGo (api : Nat → Int → Page) (L : Int) :
    Nat → List Contest → List (List Char) → Nat → List (Nat × Int) → Except PyErr FetchOut
  | 0, fetched, diags, _, trace => .ok ⟨fetched, diags, trace, .fuelOut⟩
  | fuel + 1, fetched, diags, offset, trace =>
    if L ≠ 0 ∧ L - (fetched.length : Int) ≤ 0 then .ok ⟨fetched, diags, trace, .cap⟩
    else
      if (api offset (pageLimit L fetched.length)).objects.isEmpty then
        .ok ⟨fetched, diags, trace ++ [(offset, pageLimit L fetched.length)], .emptyPage⟩
      else
        match pageLoop L fetched diags (api offset (pageLimit L fetched.length)).objects with
        | .error e => .error e
        | .ok (fetched', diags', early) =>
          if early then
            .ok ⟨fetched', diags', trace ++ [(offset, pageLimit L fetched.length)], .cap⟩
          else if (api offset (pageLimit L fetched.length)).hasNext then
            fetchGo api L fuel fetched' diags'
              (offset + (api offset (pageLimit L fetched.length)).objects.length)
              (trace ++ [(offset, pageLimit L fetched.length)])
          else
            .ok ⟨fetched', diags', trace ++ [(offset, pageLimit L fetched.length)], .noNext⟩

/-- Source `fetch_contests_for_resource` with `per_resource_limit = L`,
starting at offset 0 with nothing fetched. -/
def fetch_contests_for_resource (api : Nat → Int → Page) (L : Int) (fuel : Nat) :
    Except PyErr FetchOut :=
  fetchGo api L fuel [] [] 0 []

/-! ### The two entry points after fetching

`clist_to_ics.main` and `clist_build.main` from the point where the merged
contest list is in hand: what gets reported, whether the generator runs and
whether the output file is written.  `sys.exit(message)` prints the message
and terminates the process with status 1. -/

structure RunReport where
  exitCode : Nat
  invokedGenerator : Bool
  wroteFile : Bool
  message : List Char
deriving DecidableEq, Repr

/-- `clist_to_ics.main` after `fetch_contests_for_resources` returned
`contests`: empty list means `sys.exit("No contests retrieved. ...")`;
otherwise deduplicate, sort, apply `--max-contests`, generate and write. -/
def icsMainAfterFetch (contests : List Contest) (maxContests : Int)
    (outputPath : List Char) : RunReport :=
  if contests.isEmpty then
    ⟨1, false, false, lstr "No contests retrieved. Adjust filters or timeframe."⟩
  else
    let deduped := sortByStart (deduplicate_contests contests)
    let deduped :=
      if maxContests ≠ 0 ∧ maxContests < (deduped.length : Int) then
        deduped.take maxContests.toNat
      else deduped
    ⟨0, true, true,
      lstr "Wrote " ++ natRepr deduped.length ++ lstr " contest(s) to " ++ outputPath⟩

/-- `clist_build.main` after `fetch_contests_for_resources` returned
`contests`: empty list prints a notice and returns normally; otherwise
deduplicate, sort, generate and write. -/
def buildMainAfterFetch (contests : List Contest) (outputPath : List Char) : RunReport :=
  if contests.isEmpty then
    ⟨0, false, false, lstr "No contests found in the next three days."⟩
  else
    let deduped := sortByStart (deduplicate_contests contests)
    ⟨0, true, true,
      lstr "Wrote " ++ natRepr deduped.length ++ lstr " contest(s) to " ++ outputPath⟩

/-! ## Theorems

### C6: text escaping -/

/-- Per-character view of the four ordered substitutions: because the
backslash pass runs first, each input character is escaped independently and
backslashes introduced by the later passes are never re-escaped. -/
def escChar (c : Char) : List Char :=
  if c = '\\' then ['\\', '\\']
  else if c = ';' then ['\\', ';']
  else if c = ',' then ['\\', ',']
  else if c = '\n' then ['\\', 'n']
  else [c]

/-- Left-to-right scan for an unescaped special character: a backslash
consumes the following character; a bare semicolon, comma or newline is an
unescaped occurrence. -/
def hasUnescapedSpecial : List Char → Bool
  | [] => false
  | [c] => c = ';' || c = ',' || c = '\n'
  | c :: d :: rest =>
    if c = '\\' then hasUnescapedSpecial rest
    else (c = ';' || c = ',' || c = '\n') || hasUnescapedSpecial (d :: rest)

lemma replaceChar_cons (o : Char) (n : List Char) (c : Char) (s : List Char) :
    replaceChar o n (c :: s) = (if c = o then n else [c]) ++ replaceChar o n s := by
  simp [replaceChar]

lemma replaceChar_append (o : Char) (n : List Char) (s t : List Char) :
    replaceChar o n (s ++ t) = replaceChar o n s ++ replaceChar o n t := by
  simp [replaceChar]

lemma escape_ics_text_nil : escape_ics_text [] = [] := rfl

lemma escape_ics_text_cons (c : Char) (s : List Char) :
    escape_ics_text (c :: s) = escChar c ++ escape_ics_text s := by
  by_cases h1 : c = '\\'
  · subst h1
    simp [escape_ics_text, replaceChar_cons, replaceChar_append, escChar, replaceChar]
  · by_cases h2 : c = ';'
    · subst h2
      simp [escape_ics_text, replaceChar_cons, replaceChar_append, escChar, replaceChar]
    · by_cases h3 : c = ','
      · subst h3
        simp [escape_ics_text, replaceChar_cons, replaceChar_append, escChar, replaceChar]
      · by_cases h4 : c = '\n'
        · subst h4
          simp [escape_ics_text, replaceChar_cons, replaceChar_append, escChar, replaceChar]
        · simp [escape_ics_text, replaceChar_cons, replaceChar_append, escChar, replaceChar,
            h1, h2, h3, h4]

lemma escape_eq_flatMap_escChar (s : List Char) :
    escape_ics_text s = s.flatMap escChar := by
  induction s with
  | nil => rfl
  | cons c t ih => rw [escape_ics_text_cons, List.flatMap_cons, ih]

lemma hasUnescapedSpecial_escChar (c : Char) (t : List Char) :
    hasUnescapedSpecial (escChar c ++ t) = hasUnescapedSpecial t := by
  unfold escChar
  by_cases h1 : c = '\\'
  · subst h1; simp [hasUnescapedSpecial]
  · by_cases h2 : c = ';'
    · subst h2; simp [hasUnescapedSpecial]
    · by_cases h3 : c = ','
      · subst h3; simp [hasUnescapedSpecial]
      · by_cases h4 : c = '\n'
        · subst h4; simp [hasUnescapedSpecial]
        · simp only [h1, h2, h3, h4, if_false, List.cons_append, List.nil_append]
          cases t with
          | nil => simp [hasUnescapedSpecial, h1, h2, h3, h4]
          | cons d rest => simp [hasUnescapedSpecial, h1, h2, h3, h4]

lemma hasUnescapedSpecial_escape (s : List Char) :
    hasUnescapedSpecial (escape_ics_text s) = false := by
  rw [escape_eq_flatMap_escChar]
  induction s with
  | nil => rfl
  | cons c t ih => rw [List.flatMap_cons, hasUnescapedSpecial_escChar, ih]

lemma newline_not_mem_escChar (c : Char) : '\n' ∉ escChar c := by
  unfold escChar
  by_cases h1 : c = '\\'
  · subst h1; decide
  · by_cases h2 : c = ';'
    · subst h2; decide
    · by_cases h3 : c = ','
      · subst h3; decide
      · by_cases h4 : c = '\n'
        · subst h4; decide
        · simp [h1, h2, h3, h4]
          intro hc
          exact h4 hc.symm

/-- Claim C6: `escape_ics_text` substitutes backslash, then semicolon, then
comma, then newline (to the two-character `\n`), in that order; the ordered
substitution is equivalent to escaping each input character independently,
and for every input the output contains no unescaped semicolon or comma and
no literal newline at all. -/
theorem escape_ics_text_c6 :
    ∀ s : List Char,
      escape_ics_text s
          = replaceChar '\n' ['\\', 'n']
              (replaceChar ',' ['\\', ',']
                (replaceChar ';' ['\\', ';']
                  (replaceChar '\\' ['\\', '\\'] s)))
        ∧ escape_ics_text s = s.flatMap escChar
        ∧ hasUnescapedSpecial (escape_ics_text s) = false
        ∧ '\n' ∉ escape_ics_text s := by
  intro s
  refine ⟨rfl, escape_eq_flatMap_escChar s, hasUnescapedSpecial_escape s, ?_⟩
  rw [escape_eq_flatMap_escChar]
  intro hmem
  rcases List.mem_flatMap.mp hmem with ⟨c, _, hc⟩
  exact newline_not_mem_escChar c hc

/-! ### C9: duration humanization -/

/-- The duration-rendering rule as the specification words it: clamp the
total to zero if negative, take whole hours and minutes, render `"<h>h <m>m"`
omitting zero components, show `"<s>s"` only when hours and minutes are both
zero and seconds is non-zero, and `"0m"` when everything is zero. -/
def humanizeRule (d : Int) : List Char :=
  let s := (max d 0).toNat
  let h := s / 3600
  let m := s % 3600 / 60
  let sec := s % 60
  if h ≠ 0 ∧ m ≠ 0 then natRepr h ++ ['h'] ++ lstr " " ++ natRepr m ++ ['m']
  else if h ≠ 0 then natRepr h ++ ['h']
  else if m ≠ 0 then natRepr m ++ ['m']
  else if sec ≠ 0 then natRepr sec ++ ['s']
  else lstr "0m"

lemma clamp_toNat (d : Int) : (if d < 0 then 0 else d.toNat) = (max d 0).toNat := by
  rcases lt_or_le d 0 with h | h
  · simp [h, Int.toNat_of_nonpos h.le, max_eq_right h.le]
  · simp [not_lt.mpr h, max_eq_left h]

lemma secs_mod_eq (s : Nat) : s % 3600 % 60 = s % 60 :=
  Nat.mod_mod_of_dvd s (by norm_num)

/-- Claim C9: `humanize_duration` clamps negatives to zero, renders whole
hours and minutes omitting zero components, shows seconds only when hours
and minutes are both zero and seconds is non-zero, renders `"0m"` when all
are zero, and maps 2 hours 30 minutes to `"2h 30m"`. -/
theorem humanize_duration_c9 :
    (∀ d : Int, humanize_duration d = humanizeRule d)
      ∧ humanize_duration (2 * 3600 + 30 * 60) = lstr "2h 30m"
      ∧ humanize_duration (-5) = lstr "0m" := by
  refine ⟨?_, by decide, by decide⟩
  intro d
  unfold humanize_duration humanizeRule
  rw [clamp_toNat]
  set s := (max d 0).toNat with hs
  by_cases hh : s / 3600 = 0 <;> by_cases hm : s % 3600 / 60 = 0 <;>
    by_cases hsec : s % 60 = 0 <;>
      simp [hh, hm, hsec, secs_mod_eq, List.intersperse, lstr]

/-! ### C7: line folding -/

lemma foldRest_nil : foldSegments.foldRest [] = [] := by
  rw [foldSegments.foldRest]

lemma foldRest_cons (c : Char) (cs : List Char) :
    foldSegments.foldRest (c :: cs)
      = (' ' :: (c :: cs).take 74) :: foldSegments.foldRest ((c :: cs).drop 74) := by
  rw [foldSegments.foldRest]

lemma foldRest_flatten (r : List Char) :
    ((foldSegments.foldRest r).map (fun seg => seg.drop 1)).flatten = r := by
  induction r using foldSegments.foldRest.induct with
  | case1 => rw [foldRest_nil]; rfl
  | case2 c cs ih =>
    rw [foldRest_cons, List.map_cons, List.flatten_cons, List.drop_succ_cons, List.drop_zero]
    exact congrArg (fun t => (c :: cs).take 74 ++ t) ih |>.trans
      (List.take_append_drop 74 (c :: cs))

lemma foldRest_shape (r : List Char) :
    ∀ seg ∈ foldSegments.foldRest r, ∃ p, seg = ' ' :: p ∧ p.length ≤ 74 := by
  induction r using foldSegments.foldRest.induct with
  | case1 => intro seg h; rw [foldRest_nil] at h; cases h
  | case2 c cs ih =>
    intro seg hseg
    rw [foldRest_cons] at hseg
    rcases List.mem_cons.mp hseg with h | h
    · exact ⟨(c :: cs).take 74, h, by simp⟩
    · exact ih seg h

/-- Claim C7: a line of at most 75 characters is returned unchanged; a longer
line is split into its first 75 characters followed by space-prefixed
continuation segments of at most 74 payload characters, joined by CRLF; and
for every input, the head segment followed by the continuation payloads
(leading space stripped) reconstructs the input exactly. -/
theorem fold_ics_line_c7 :
    ∀ line : List Char,
      ((foldSegments line).headI
          ++ ((foldSegments line).tail.map (fun seg => seg.drop 1)).flatten = line)
        ∧ (line.length ≤ 75 → fold_ics_line line = line)
        ∧ (75 < line.length →
            fold_ics_line line = ((foldSegments line).intersperse (lstr "\r\n")).flatten
              ∧ (foldSegments line).headI = line.take 75
              ∧ (line.take 75).length = 75
              ∧ ∀ seg ∈ (foldSegments line).tail, ∃ p, seg = ' ' :: p ∧ p.length ≤ 74) := by
  intro line
  refine ⟨?_, ?_, ?_⟩
  · show line.take 75 ++ ((foldSegments.foldRest (line.drop 75)).map (fun seg => seg.drop 1)).flatten = line
    rw [foldRest_flatten, List.take_append_drop]
  · intro h
    simp [fold_ics_line, h]
  · intro h
    refine ⟨by simp [fold_ics_line, Nat.not_le.mpr h], rfl, ?_, ?_⟩
    · simp [List.length_take]
      omega
    · exact foldRest_shape (line.drop 75)

/-- Witness for C7: a 76-character line folds into the 75-character head plus
one continuation, and re-joining reconstructs it; a short line is unchanged. -/
theorem fold_ics_line_c7_witness :
    (fold_ics_line (lstr "ab") = lstr "ab")
      ∧ fold_ics_line (List.replicate 76 'x')
          = ((foldSegments (List.replicate 76 'x')).intersperse (lstr "\r\n")).flatten :=
  ⟨(fold_ics_line_c7 (lstr "ab")).2.1 (by decide),
    ((fold_ics_line_c7 (List.replicate 76 'x')).2.2 (by decide)).1⟩

/-! ### C2: empty merged contest list -/

/-- Counterexample to claim C2 as stated: with an empty merged list the CLI
entry point `clist_to_ics.main` calls `sys.exit("No contests retrieved. ...")`,
which terminates the process with status 1 — a failure signal, not a
successful exit. -/
theorem empty_run_exit_counterexample_c2 :
    (icsMainAfterFetch [] 0 (lstr "contests.ics")).exitCode = 1 := by decide

/-- Claim C2 (amended): with an empty merged contest list neither entry point
invokes the calendar generator or writes an output file; `clist_build.main`
reports a non-error "nothing to do" outcome and exits successfully, but
`clist_to_ics.main` exits with status 1 carrying the "No contests retrieved"
message. -/
theorem empty_run_outcome_c2 :
    (∀ maxContests : Int, ∀ outputPath : List Char,
        icsMainAfterFetch [] maxContests outputPath
          = ⟨1, false, false, lstr "No contests retrieved. Adjust filters or timeframe."⟩)
      ∧ (∀ outputPath : List Char,
          buildMainAfterFetch [] outputPath
            = ⟨0, false, false, lstr "No contests found in the next three days."⟩) := by
  exact ⟨fun _ _ => rfl, fun _ => rfl⟩

/-! ### C5: resource-filter resolution -/

/-- Deduplication by identity keeping first occurrences. -/
def dedupFirst {α : Type} [DecidableEq α] (xs : List α) : List α := go [] xs
where
  go (seen : List α) : List α → List α
    | [] => []
    | x :: rest => if x ∈ seen then go seen rest else x :: go (x :: seen) rest

/-- Classify a list of tokens, stopping at the first unresolvable one. -/
def classifyAll : List (List Char) → Except FilterErr (List RFilter)
  | [] => .ok []
  | t :: ts =>
    match classifyToken t with
    | .error e => .error e
    | .ok f =>
      match classifyAll ts with
      | .error e => .error e
      | .ok fs => .ok (f :: fs)

/-- `resolve_resource_filters` as the specification words it: strip tokens
and skip blank ones, classify each in order (failing on the first
unresolvable token), deduplicate by identity keeping first occurrences, and
fail with `NoValidResources` when nothing resolved. -/
def resolveRule (resources : List (List Char)) : Except FilterErr (List RFilter) :=
  let ts := (resources.map pyStripChars).filter (fun t => t ≠ [])
  match classifyAll ts with
  | .error e => .error e
  | .ok fs =>
    let ds := dedupFirst fs
    if ds = [] then .error .noValid else .ok ds

lemma dedupFirst_go_congr {α : Type} [DecidableEq α] :
    ∀ (xs : List α) (s1 s2 : List α), (∀ x, x ∈ s1 ↔ x ∈ s2) →
      dedupFirst.go s1 xs = dedupFirst.go s2 xs := by
  intro xs
  induction xs with
  | nil => intro _ _ _; rfl
  | cons x rest ih =>
    intro s1 s2 h
    by_cases hx : x ∈ s1
    · simp [dedupFirst.go, hx, (h x).mp hx, ih s1 s2 h]
    · have hx2 : x ∉ s2 := fun hc => hx ((h x).mpr hc)
      simp only [dedupFirst.go, hx, hx2, if_false]
      rw [ih (x :: s1) (x :: s2) (by intro y; simp [h y])]

lemma resolve_go_eq (rest : List (List Char)) :
    ∀ resolved : List RFilter,
      resolve_resource_filters.go resolved rest
        = match classifyAll ((rest.map pyStripChars).filter (fun t => t ≠ [])) with
          | .error e => .error e
          | .ok fs =>
            let ds := resolved ++ dedupFirst.go resolved fs
            if ds = [] then .error .noValid else .ok ds := by
  induction rest with
  | nil =>
    intro resolved
    by_cases h : resolved = [] <;>
      simp [resolve_resource_filters.go, classifyAll, h, dedupFirst.go]
  | cons raw rest ih =>
    intro resolved
    by_cases hblank : pyStripChars raw = []
    · simp [resolve_resource_filters.go, hblank, ih resolved]
    · rcases hcl : classifyToken (pyStripChars raw) with e | kv
      · simp [resolve_resource_filters.go, hblank, hcl, classifyAll]
      · have hgo : resolve_resource_filters.go resolved (raw :: rest)
            = resolve_resource_filters.go
                (if kv ∈ resolved then resolved else resolved ++ [kv]) rest := by
          simp [resolve_resource_filters.go, hblank, hcl]
        have hca : classifyAll (((raw :: rest).map pyStripChars).filter (fun t => t ≠ []))
            = match classifyAll ((rest.map pyStripChars).filter (fun t => t ≠ [])) with
              | .error e => .error e
              | .ok fs => .ok (kv :: fs) := by
          simp [classifyAll, hblank, hcl]
        rw [hgo, ih, hca]
        rcases classifyAll ((rest.map pyStripChars).filter (fun t => t ≠ [])) with e | fs
        · rfl
        · by_cases hmem : kv ∈ resolved
          · simp [hmem, dedupFirst.go]
          · simp only [hmem, if_false, dedupFirst.go]
            rw [dedupFirst_go_congr fs (resolved ++ [kv]) (kv :: resolved)
              (by intro y; simp; tauto)]
            simp

/-- Claim C5: `resolve_resource_filters` skips blank tokens; maps a token to
a `resource`-hostname filter when its lowercased form is a known alias, else
to a `resource_id` filter when all digits, else to a `resource` filter when
it contains a dot, and otherwise fails with the unresolvable-token error;
the result is deduplicated by identity keeping first occurrences, and an
empty resolved list fails with the no-valid-resources error. -/
theorem resolve_resource_filters_c5 :
    (∀ resources, resolve_resource_filters resources = resolveRule resources)
      ∧ (∀ t host, aliasLookup (pyLower t) = some host →
          classifyToken t = .ok (.resource host))
      ∧ (∀ t, aliasLookup (pyLower t) = none → pyIsdigit t = true →
          classifyToken t = .ok (.resource_id (natOfDigits t)))
      ∧ (∀ t, aliasLookup (pyLower t) = none → pyIsdigit t = false →
          t.contains '.' = true → classifyToken t = .ok (.resource t))
      ∧ (∀ t, aliasLookup (pyLower t) = none → pyIsdigit t = false →
          t.contains '.' = false → classifyToken t = .error (.unresolvable t)) := by
  refine ⟨?_, ?_, ?_, ?_, ?_⟩
  · intro resources
    rw [resolve_resource_filters, resolve_go_eq]
    simp only [resolveRule, dedupFirst]
    rcases classifyAll ((resources.map pyStripChars).filter (fun t => t ≠ [])) with e | fs
      <;> simp
  · intro t host h; simp [classifyToken, h]
  · intro t h hd; simp [classifyToken, h, hd]
  · intro t h hd hc
    have hc' : '.' ∈ t := by simpa using hc
    simp [classifyToken, h, hd, hc']
  · intro t h hd hc
    have hc' : '.' ∉ t := by simpa using hc
    simp [classifyToken, h, hd, hc']

/-- Witness for C5: one concrete token of each classification, resolved as
the claim describes. -/
theorem resolve_resource_filters_c5_witness :
    classifyToken (lstr "cf") = .ok (.resource (lstr "codeforces.com"))
      ∧ classifyToken (lstr "93") = .ok (.resource_id (natOfDigits (lstr "93")))
      ∧ classifyToken (lstr "x.org") = .ok (.resource (lstr "x.org"))
      ∧ classifyToken (lstr "bogus") = .error (.unresolvable (lstr "bogus")) :=
  ⟨resolve_resource_filters_c5.2.1 (lstr "cf") (lstr "codeforces.com") (by decide),
   resolve_resource_filters_c5.2.2.1 (lstr "93") (by decide) (by decide),
   resolve_resource_filters_c5.2.2.2.1 (lstr "x.org") (by decide) (by decide) (by decide),
   resolve_resource_filters_c5.2.2.2.2 (lstr "bogus") (by decide) (by decide) (by decide)⟩

/-! ### C8: calendar timestamp formatting -/

/-- The hand-computed `YYYYMMDDTHHMMSSZ` expectation for a set of civil
fields. -/
def icsTimestampExpected (u : PyDatetime) : List Char :=
  padz 4 u.year ++ padz 2 u.month ++ padz 2 u.day ++ ['T']
    ++ padz 2 u.hour ++ padz 2 u.minute ++ padz 2 u.second ++ ['Z']

lemma natRepr_length_le (n e : Nat) (h0 : 0 < e) (h : n < 10 ^ e) :
    (natRepr n).length ≤ e :=
  Nat.repr_length n e h0 h

lemma padz_length (w n : Nat) (h : (natRepr n).length ≤ w) : (padz w n).length = w := by
  simp only [padz, List.length_append, List.length_replicate]
  omega

lemma ensure_utc_offset (v : PyDatetime) : (ensure_utc v).offset = some 0 := by
  rcases v with ⟨y, mo, d, h, mi, s, o⟩
  rcases o with _ | o
  · rfl
  · by_cases ho : o = 0 <;> simp [ensure_utc, astimezoneUTC, ho, fromEpochSecs]

lemma ensure_utc_of_utc (v : PyDatetime) (h : v.offset = some 0 ∨ v.offset = none) :
    ensure_utc v = { v with offset := some 0 } := by
  rcases v with ⟨y, mo, d, hh, mi, s, o⟩
  rcases h with h | h <;> simp only [] at h <;> subst h <;>
    simp [ensure_utc, astimezoneUTC]

lemma format_eq_expected (u : PyDatetime) :
    pyStrftime u (lstr "%Y%m%dT%H%M%SZ") = icsTimestampExpected u := by
  simp [lstr, pyStrftime, icsTimestampExpected]

/-- Claim C8: `format_ics_datetime` renders the UTC normalization of its
input exactly as `YYYYMMDDTHHMMSSZ`: the output equals the hand-computed
pattern over the fields of `ensure_utc value`, the normalization carries UTC
offset zero, an input already in UTC (or naive) is rendered from its own
fields, and within the `datetime` field ranges the pattern is 16 characters
with `T` at index 8 and a final `Z`. -/
theorem format_ics_datetime_c8 :
    (∀ v : PyDatetime, format_ics_datetime v = icsTimestampExpected (ensure_utc v))
      ∧ (∀ v : PyDatetime, (ensure_utc v).offset = some 0)
      ∧ (∀ v : PyDatetime, v.offset = some 0 ∨ v.offset = none →
          format_ics_datetime v = icsTimestampExpected { v with offset := some 0 })
      ∧ (∀ u : PyDatetime, u.year < 10000 → u.month < 100 → u.day < 100 →
          u.hour < 100 → u.minute < 100 → u.second < 100 →
          (icsTimestampExpected u).length = 16
            ∧ (icsTimestampExpected u).get? 8 = some 'T'
            ∧ (icsTimestampExpected u).getLast? = some 'Z') := by
  refine ⟨?_, ensure_utc_offset, ?_, ?_⟩
  · intro v
    rw [format_ics_datetime, format_eq_expected]
  · intro v h
    rw [format_ics_datetime, format_eq_expected, ensure_utc_of_utc v h]
  · intro u hy hmo hd hh hmi hs
    have ly : (padz 4 u.year).length = 4 :=
      padz_length 4 u.year (natRepr_length_le u.year 4 (by norm_num) (by norm_num [hy]))
    have lmo : (padz 2 u.month).length = 2 :=
      padz_length 2 u.month (natRepr_length_le u.month 2 (by norm_num) (by norm_num [hmo]))
    have ld : (padz 2 u.day).length = 2 :=
      padz_length 2 u.day (natRepr_length_le u.day 2 (by norm_num) (by norm_num [hd]))
    have lh : (padz 2 u.hour).length = 2 :=
      padz_length 2 u.hour (natRepr_length_le u.hour 2 (by norm_num) (by norm_num [hh]))
    have lmi : (padz 2 u.minute).length = 2 :=
      padz_length 2 u.minute (natRepr_length_le u.minute 2 (by norm_num) (by norm_num [hmi]))
    have ls : (padz 2 u.second).length = 2 :=
      padz_length 2 u.second (natRepr_length_le u.second 2 (by norm_num) (by norm_num [hs]))
    refine ⟨?_, ?_, ?_⟩
    · simp [icsTimestampExpected, ly, lmo, ld, lh, lmi, ls]
    · rw [icsTimestampExpected]
      rw [show padz 4 u.year ++ padz 2 u.month ++ padz 2 u.day ++ ['T'] ++ padz 2 u.hour
            ++ padz 2 u.minute ++ padz 2 u.second ++ ['Z']
          = (padz 4 u.year ++ padz 2 u.month ++ padz 2 u.day)
            ++ ('T' :: (padz 2 u.hour ++ padz 2 u.minute ++ padz 2 u.second ++ ['Z'])) by
        simp]
      rw [List.get?_eq_getElem?, List.getElem?_append_right (by simp [ly, lmo, ld])]
      simp [ly, lmo, ld]
    · rw [icsTimestampExpected]
      exact List.getLast?_concat _

/-- Witness for C8: a concrete UTC value renders to the expected literal,
and the pattern-shape facts hold for its fields. -/
theorem format_ics_datetime_c8_witness :
    format_ics_datetime ⟨2025, 1, 1, 2, 30, 0, some 0⟩ = lstr "20250101T023000Z"
      ∧ (icsTimestampExpected ⟨2025, 1, 1, 2, 30, 0, some 0⟩).length = 16 :=
  ⟨(format_ics_datetime_c8.2.2.1 ⟨2025, 1, 1, 2, 30, 0, some 0⟩ (Or.inl rfl)).trans (by decide),
   (format_ics_datetime_c8.2.2.2 ⟨2025, 1, 1, 2, 30, 0, some 0⟩ (by decide) (by decide)
      (by decide) (by decide) (by decide) (by decide)).1⟩

/-! ### C4: deduplication and sorting -/

/-- The last record with a given `contest_id` in input order. -/
def lastWithId (k : Int) (cs : List Contest) : Option Contest :=
  (cs.filter (fun c => c.contest_id = k)).getLast?

lemma dictInsert_keys_of_mem (m : List (Int × Contest)) (k : Int) (c : Contest)
    (h : k ∈ m.map Prod.fst) :
    (dictInsert m k c).map Prod.fst = m.map Prod.fst := by
  have hany : m.any (fun p => p.1 = k) = true := by
    rcases List.mem_map.mp h with ⟨p, hp, hk⟩
    exact List.any_eq_true.mpr ⟨p, hp, by simp [hk]⟩
  rw [dictInsert, if_pos hany, List.map_map]
  refine List.map_congr_left ?_
  intro p _
  by_cases hp : p.1 = k <;> simp [hp]

lemma dictInsert_keys_of_not_mem (m : List (Int × Contest)) (k : Int) (c : Contest)
    (h : k ∉ m.map Prod.fst) :
    (dictInsert m k c).map Prod.fst = m.map Prod.fst ++ [k] := by
  have hany : m.any (fun p => p.1 = k) = false := by
    rw [List.any_eq_false]
    intro p hp hk
    exact h (List.mem_map.mpr ⟨p, hp, by simpa using hk⟩)
  rw [dictInsert, if_neg (by simp [hany]), List.map_append]
  rfl

lemma mem_dictInsert (m : List (Int × Contest)) (k : Int) (c : Contest)
    (p : Int × Contest) (hp : p ∈ dictInsert m k c) :
    (p.1 = k ∧ p.2 = c) ∨ (p ∈ m ∧ p.1 ≠ k) := by
  rw [dictInsert] at hp
  by_cases hany : m.any (fun q => q.1 = k) = true
  · rw [if_pos hany] at hp
    rcases List.mem_map.mp hp with ⟨q, hq, hqe⟩
    by_cases hqk : q.1 = k
    · rw [if_pos hqk] at hqe
      left
      rw [← hqe]
      exact ⟨rfl, rfl⟩
    · rw [if_neg hqk] at hqe
      right
      rw [← hqe]
      exact ⟨hq, hqk⟩
  · rw [if_neg hany] at hp
    rcases List.mem_append.mp hp with h | h
    · right
      refine ⟨h, ?_⟩
      intro hk
      exact hany (List.any_eq_true.mpr ⟨p, h, by simp [hk]⟩)
    · left
      rcases List.mem_singleton.mp h with rfl
      exact ⟨rfl, rfl⟩

lemma dedup_fold_keys (cs : List Contest) :
    ∀ m : List (Int × Contest),
      (cs.foldl (fun m c => dictInsert m c.contest_id c) m).map Prod.fst
        = m.map Prod.fst
            ++ dedupFirst.go (m.map Prod.fst) (cs.map (fun c => c.contest_id)) := by
  induction cs with
  | nil => intro m; simp [dedupFirst.go]
  | cons c cs ih =>
    intro m
    rw [List.foldl_cons, List.map_cons]
    by_cases hmem : c.contest_id ∈ m.map Prod.fst
    · rw [ih (dictInsert m c.contest_id c), dictInsert_keys_of_mem m _ _ hmem]
      simp [dedupFirst.go, hmem]
    · rw [ih (dictInsert m c.contest_id c), dictInsert_keys_of_not_mem m _ _ hmem]
      rw [dedupFirst_go_congr (cs.map (fun c => c.contest_id))
        (m.map Prod.fst ++ [c.contest_id]) (c.contest_id :: m.map Prod.fst)
        (by intro y; simp; tauto)]
      simp [dedupFirst.go, hmem]

lemma getLast?_cons_of_ne_nil {α : Type} (a : α) {l : List α} (h : l ≠ []) :
    (a :: l).getLast? = l.getLast? := by
  cases l with
  | nil => exact absurd rfl h
  | cons b t => exact List.getLast?_cons_cons

lemma dedup_fold_values (cs : List Contest) :
    ∀ (m : List (Int × Contest)) (k : Int) (v : Contest),
      (k, v) ∈ cs.foldl (fun m c => dictInsert m c.contest_id c) m →
        ((cs.filter (fun c => c.contest_id = k)) = [] ∧ (k, v) ∈ m)
          ∨ some v = (cs.filter (fun c => c.contest_id = k)).getLast? := by
  induction cs with
  | nil =>
    intro m k v hm
    exact Or.inl ⟨rfl, hm⟩
  | cons c cs ih =>
    intro m k v hm
    rw [List.foldl_cons] at hm
    rcases ih (dictInsert m c.contest_id c) k v hm with ⟨hfil, hmem⟩ | hlast
    · rcases mem_dictInsert m c.contest_id c (k, v) hmem with ⟨hk, hv⟩ | ⟨hold, hk⟩
      · simp only [] at hk hv
        subst hk; subst hv
        right
        rw [List.filter_cons, if_pos (by simp), hfil]
        rfl
      · simp only [] at hk
        left
        rw [List.filter_cons, if_neg (by simpa using fun hc => hk hc.symm)]
        exact ⟨hfil, hold⟩
    · right
      have hne : (cs.filter (fun c => c.contest_id = k)) ≠ [] := by
        intro hnil
        rw [hnil] at hlast
        exact Option.noConfusion hlast
      rw [List.filter_cons]
      by_cases hck : c.contest_id = k
      · rw [if_pos (by simpa using hck), getLast?_cons_of_ne_nil c hne]
        exact hlast
      · rw [if_neg (by simpa using hck)]
        exact hlast

lemma dedup_fold_pair_id (cs : List Contest) :
    ∀ m : List (Int × Contest), (∀ p ∈ m, p.1 = p.2.contest_id) →
      ∀ p ∈ cs.foldl (fun m c => dictInsert m c.contest_id c) m, p.1 = p.2.contest_id := by
  induction cs with
  | nil => intro m hm p hp; exact hm p hp
  | cons c cs ih =>
    intro m hm p hp
    rw [List.foldl_cons] at hp
    refine ih (dictInsert m c.contest_id c) ?_ p hp
    intro q hq
    rcases mem_dictInsert m c.contest_id c q hq with ⟨hk, hv⟩ | ⟨hold, _⟩
    · rw [hk, hv]
    · exact hm q hold

lemma startLe_total_key {a b : Contest} (h : ¬ startLe a b) :
    instantSecs b.start < instantSecs a.start := by
  rw [startLe] at h
  omega

lemma filter_orderedInsert (t : Int) (a : Contest) (l : List Contest) :
    (l.orderedInsert startLe a).filter (fun c => instantSecs c.start = t)
      = if instantSecs a.start = t
        then a :: l.filter (fun c => instantSecs c.start = t)
        else l.filter (fun c => instantSecs c.start = t) := by
  induction l with
  | nil =>
    by_cases ha : instantSecs a.start = t <;> simp [List.orderedInsert, ha]
  | cons b l ih =>
    rw [List.orderedInsert]
    by_cases hle : startLe a b
    · rw [if_pos hle]
      by_cases ha : instantSecs a.start = t <;> simp [ha, List.filter_cons]
    · rw [if_neg hle]
      have hbt := startLe_total_key hle
      by_cases ha : instantSecs a.start = t
      · have hb : ¬ instantSecs b.start = t := by omega
        simp [List.filter_cons, ih, ha, hb]
      · by_cases hb : instantSecs b.start = t
        · simp [List.filter_cons, ih, ha, hb]
        · simp [List.filter_cons, ih, ha, hb]

lemma filter_sortByStart (t : Int) (l : List Contest) :
    (sortByStart l).filter (fun c => instantSecs c.start = t)
      = l.filter (fun c => instantSecs c.start = t) := by
  induction l with
  | nil => rfl
  | cons a l ih =>
    rw [sortByStart, List.insertionSort, filter_orderedInsert, List.filter_cons]
    by_cases ha : instantSecs a.start = t
    · rw [if_pos ha, if_pos (by simpa using ha), ← sortByStart, ih]
    · rw [if_neg ha, if_neg (by simpa using ha), ← sortByStart, ih]

/-- Claim C4: `deduplicate_contests` followed by the sort on `start` yields
exactly one contest per distinct `contest_id` — the last record with that id
in input order, keys in first-occurrence order — sorted by start ascending
(instant order of the UTC-aware timestamps), as a permutation of the
deduplicated list in which contests with equal start keep the dedup
mapping's relative order (every equal-key filter class is preserved). -/
theorem dedup_sort_c4 :
    ∀ cs : List Contest,
      ((deduplicate_contests cs).map (fun c => c.contest_id)
          = dedupFirst (cs.map (fun c => c.contest_id)))
        ∧ (∀ c ∈ deduplicate_contests cs, lastWithId c.contest_id cs = some c)
        ∧ List.Sorted startLe (sortByStart (deduplicate_contests cs))
        ∧ List.Perm (sortByStart (deduplicate_contests cs)) (deduplicate_contests cs)
        ∧ (∀ t : Int,
            (sortByStart (deduplicate_contests cs)).filter
                (fun c => instantSecs c.start = t)
              = (deduplicate_contests cs).filter (fun c => instantSecs c.start = t)) := by
  intro cs
  have hpair : ∀ p ∈ cs.foldl (fun m c => dictInsert m c.contest_id c) [], p.1 = p.2.contest_id :=
    dedup_fold_pair_id cs [] (by intro p hp; cases hp)
  refine ⟨?_, ?_, ?_, ?_, ?_⟩
  · rw [deduplicate_contests, dedupFirst, List.map_map]
    have := dedup_fold_keys cs []
    simp only [List.map_nil, List.nil_append] at this
    rw [← this]
    refine List.map_congr_left ?_
    intro p hp
    exact (hpair p hp).symm
  · intro c hc
    rcases List.mem_map.mp hc with ⟨p, hp, hpc⟩
    have hk : p.1 = c.contest_id := by rw [hpair p hp, hpc]
    rcases dedup_fold_values cs [] p.1 p.2 (by rwa [Prod.mk.eta]) with ⟨_, habs⟩ | hlast
    · cases habs
    · rw [lastWithId, ← hk, ← hpc]
      exact hlast.symm
  · exact List.sorted_insertionSort startLe (deduplicate_contests cs)
  · exact List.perm_insertionSort startLe (deduplicate_contests cs)
  · intro t
    exact filter_sortByStart t (deduplicate_contests cs)

/-- Witness for C4: two fetched records sharing `contest_id = 42` with
different titles — deduplication keeps only the later one. -/
theorem dedup_sort_c4_witness :
    lastWithId 42
        [⟨42, lstr "Old", ⟨2025, 1, 1, 0, 0, 0, some 0⟩, ⟨2025, 1, 1, 1, 0, 0, some 0⟩,
          lstr "", 1, lstr "CF"⟩,
         ⟨42, lstr "New", ⟨2025, 1, 2, 0, 0, 0, some 0⟩, ⟨2025, 1, 2, 1, 0, 0, some 0⟩,
          lstr "", 1, lstr "CF"⟩]
      = some ⟨42, lstr "New", ⟨2025, 1, 2, 0, 0, 0, some 0⟩, ⟨2025, 1, 2, 1, 0, 0, some 0⟩,
          lstr "", 1, lstr "CF"⟩ := by
  have h := (dedup_sort_c4
    [⟨42, lstr "Old", ⟨2025, 1, 1, 0, 0, 0, some 0⟩, ⟨2025, 1, 1, 1, 0, 0, some 0⟩,
      lstr "", 1, lstr "CF"⟩,
     ⟨42, lstr "New", ⟨2025, 1, 2, 0, 0, 0, some 0⟩, ⟨2025, 1, 2, 1, 0, 0, some 0⟩,
      lstr "", 1, lstr "CF"⟩]).2.1
    ⟨42, lstr "New", ⟨2025, 1, 2, 0, 0, 0, some 0⟩, ⟨2025, 1, 2, 1, 0, 0, some 0⟩,
      lstr "", 1, lstr "CF"⟩ (by decide)
  simpa using h

/-! ### C3: pagination and the per-resource cap -/

/-- The contests a payload list parses to (skipped records omitted). -/
def oks (ps : List PFields) : List Contest :=
  ps.filterMap (fun p => (parse_contest p).toOption)

/-- A payload whose parse failure would escape the `except ValueError`
clause (`KeyError`/`TypeError`). -/
def severeBool (p : PFields) : Bool :=
  match parse_contest p with
  | .error (.valueError _) => false
  | .error _ => true
  | .ok _ => false

/-- The diagnostics emitted for a payload list's skipped records, in order. -/
def skipMsgs (ps : List PFields) : List (List Char) :=
  ps.filterMap (fun p =>
    match parse_contest p with
    | .error (.valueError m) => some (skipMsg m)
    | _ => none)

/-- Each request's offset is the previous offset advanced by the number of
objects the previous request returned. -/
def offsetChained (api : Nat → Int → Page) : Nat → List (Nat × Int) → Prop
  | _, [] => True
  | o0, (o, l) :: rest =>
    o = o0 ∧ offsetChained api (o + (api o l).objects.length) rest

lemma pageLoop_nil (L : Int) (fetched : List Contest) (diags : List (List Char)) :
    pageLoop L fetched diags [] = .ok (fetched, diags, false) := by
  rw [pageLoop]

lemma pageLoop_cons_val (L : Int) (fetched : List Contest) (diags : List (List Char))
    {p : PFields} {m : List Char} (ps : List PFields)
    (hp : parse_contest p = .error (.valueError m)) :
    pageLoop L fetched diags (p :: ps) = pageLoop L fetched (diags ++ [skipMsg m]) ps := by
  rw [pageLoop, hp]

lemma pageLoop_cons_key (L : Int) (fetched : List Contest) (diags : List (List Char))
    {p : PFields} {k : List Char} (ps : List PFields)
    (hp : parse_contest p = .error (.keyError k)) :
    pageLoop L fetched diags (p :: ps) = .error (.keyError k) := by
  rw [pageLoop, hp]

lemma pageLoop_cons_typ (L : Int) (fetched : List Contest) (diags : List (List Char))
    {p : PFields} {m : List Char} (ps : List PFields)
    (hp : parse_contest p = .error (.typeError m)) :
    pageLoop L fetched diags (p :: ps) = .error (.typeError m) := by
  rw [pageLoop, hp]

lemma pageLoop_cons_ok (L : Int) (fetched : List Contest) (diags : List (List Char))
    {p : PFields} {c : Contest} (ps : List PFields)
    (hp : parse_contest p = .ok c) :
    pageLoop L fetched diags (p :: ps)
      = if L ≠ 0 ∧ L ≤ ((fetched ++ [c]).length : Int) then .ok (fetched ++ [c], diags, true)
        else pageLoop L (fetched ++ [c]) diags ps := by
  rw [pageLoop, hp]

lemma pageLoop_len (L : Int) (hL : 0 < L) :
    ∀ (ps : List PFields) (fetched : List Contest) (diags : List (List Char)),
      (fetched.length : Int) < L →
      ∀ f' d' early, pageLoop L fetched diags ps = .ok (f', d', early) →
        (early = true → (f'.length : Int) = L) ∧ (early = false → (f'.length : Int) < L) := by
  intro ps
  induction ps with
  | nil =>
    intro fetched diags hlen f' d' early h
    rw [pageLoop_nil] at h
    simp only [Except.ok.injEq, Prod.mk.injEq] at h
    obtain ⟨rfl, rfl, rfl⟩ := h
    exact ⟨(fun hc => nomatch hc), fun _ => hlen⟩
  | cons p ps ih =>
    intro fetched diags hlen f' d' early h
    rcases hp : parse_contest p with e | c
    · rcases e with m | k | m
      · rw [pageLoop_cons_val L fetched diags ps hp] at h
        exact ih fetched (diags ++ [skipMsg m]) hlen f' d' early h
      · rw [pageLoop_cons_key L fetched diags ps hp] at h
        cases h
      · rw [pageLoop_cons_typ L fetched diags ps hp] at h
        cases h
    · rw [pageLoop_cons_ok L fetched diags ps hp] at h
      by_cases hcap : L ≠ 0 ∧ L ≤ ((fetched ++ [c]).length : Int)
      · rw [if_pos hcap] at h
        simp only [Except.ok.injEq, Prod.mk.injEq] at h
        obtain ⟨rfl, rfl, rfl⟩ := h
        refine ⟨fun _ => ?_, fun hc => nomatch hc⟩
        have h2 := hcap.2
        simp only [List.length_append, List.length_cons, List.length_nil] at h2 ⊢
        push_cast at h2 ⊢
        omega
      · rw [if_neg hcap] at h
        have hlt : ((fetched ++ [c]).length : Int) < L := by
          rcases not_and_or.mp hcap with hc | hc
          · exact absurd (by omega : L ≠ 0) hc
          · simp only [List.length_append, List.length_cons, List.length_nil] at hc ⊢
            push_cast at hc ⊢
            omega
        exact ih (fetched ++ [c]) diags hlt f' d' early h

lemma fetchGo_zero (api : Nat → Int → Page) (L : Int) (fetched : List Contest)
    (diags : List (List Char)) (offset : Nat) (trace : List (Nat × Int)) :
    fetchGo api L 0 fetched diags offset trace = .ok ⟨fetched, diags, trace, .fuelOut⟩ := by
  rw [fetchGo]

lemma fetchGo_succ_cap (api : Nat → Int → Page) (L : Int) (fuel : Nat) (fetched : List Contest)
    (diags : List (List Char)) (offset : Nat) (trace : List (Nat × Int))
    (hcap : L ≠ 0 ∧ L - (fetched.length : Int) ≤ 0) :
    fetchGo api L (fuel + 1) fetched diags offset trace = .ok ⟨fetched, diags, trace, .cap⟩ := by
  rw [fetchGo, if_pos hcap]

lemma fetchGo_succ_empty (api : Nat → Int → Page) (L : Int) (fuel : Nat) (fetched : List Contest)
    (diags : List (List Char)) (offset : Nat) (trace : List (Nat × Int))
    (hcap : ¬(L ≠ 0 ∧ L - (fetched.length : Int) ≤ 0))
    (hempty : (api offset (pageLimit L fetched.length)).objects.isEmpty = true) :
    fetchGo api L (fuel + 1) fetched diags offset trace
      = .ok ⟨fetched, diags, trace ++ [(offset, pageLimit L fetched.length)], .emptyPage⟩ := by
  rw [fetchGo, if_neg hcap, if_pos hempty]

lemma fetchGo_succ_err (api : Nat → Int → Page) (L : Int) (fuel : Nat) (fetched : List Contest)
    (diags : List (List Char)) (offset : Nat) (trace : List (Nat × Int)) {e : PyErr}
    (hcap : ¬(L ≠ 0 ∧ L - (fetched.length : Int) ≤ 0))
    (hempty : ¬(api offset (pageLimit L fetched.length)).objects.isEmpty = true)
    (hpl : pageLoop L fetched diags (api offset (pageLimit L fetched.length)).objects = .error e) :
    fetchGo api L (fuel + 1) fetched diags offset trace = .error e := by
  rw [fetchGo, if_neg hcap, if_neg hempty, hpl]

lemma fetchGo_succ_early (api : Nat → Int → Page) (L : Int) (fuel : Nat) (fetched : List Contest)
    (diags : List (List Char)) (offset : Nat) (trace : List (Nat × Int))
    {f' : List Contest} {d' : List (List Char)}
    (hcap : ¬(L ≠ 0 ∧ L - (fetched.length : Int) ≤ 0))
    (hempty : ¬(api offset (pageLimit L fetched.length)).objects.isEmpty = true)
    (hpl : pageLoop L fetched diags (api offset (pageLimit L fetched.length)).objects
      = .ok (f', d', true)) :
    fetchGo api L (fuel + 1) fetched diags offset trace
      = .ok ⟨f', d', trace ++ [(offset, pageLimit L fetched.length)], .cap⟩ := by
  rw [fetchGo, if_neg hcap, if_neg hempty, hpl]
  rfl

lemma fetchGo_succ_cont (api : Nat → Int → Page) (L : Int) (fuel : Nat) (fetched : List Contest)
    (diags : List (List Char)) (offset : Nat) (trace : List (Nat × Int))
    {f' : List Contest} {d' : List (List Char)}
    (hcap : ¬(L ≠ 0 ∧ L - (fetched.length : Int) ≤ 0))
    (hempty : ¬(api offset (pageLimit L fetched.length)).objects.isEmpty = true)
    (hpl : pageLoop L fetched diags (api offset (pageLimit L fetched.length)).objects
      = .ok (f', d', false))
    (hnext : (api offset (pageLimit L fetched.length)).hasNext = true) :
    fetchGo api L (fuel + 1) fetched diags offset trace
      = fetchGo api L fuel f' d'
          (offset + (api offset (pageLimit L fetched.length)).objects.length)
          (trace ++ [(offset, pageLimit L fetched.length)]) := by
  rw [fetchGo, if_neg hcap, if_neg hempty, hpl]
  simp only [if_neg Bool.false_ne_true, if_pos hnext]

lemma fetchGo_succ_noNext (api : Nat → Int → Page) (L : Int) (fuel : Nat) (fetched : List Contest)
    (diags : List (List Char)) (offset : Nat) (trace : List (Nat × Int))
    {f' : List Contest} {d' : List (List Char)}
    (hcap : ¬(L ≠ 0 ∧ L - (fetched.length : Int) ≤ 0))
    (hempty : ¬(api offset (pageLimit L fetched.length)).objects.isEmpty = true)
    (hpl : pageLoop L fetched diags (api offset (pageLimit L fetched.length)).objects
      = .ok (f', d', false))
    (hnext : (api offset (pageLimit L fetched.length)).hasNext = false) :
    fetchGo api L (fuel + 1) fetched diags offset trace
      = .ok ⟨f', d', trace ++ [(offset, pageLimit L fetched.length)], .noNext⟩ := by
  rw [fetchGo, if_neg hcap, if_neg hempty, hpl]
  simp only [if_neg Bool.false_ne_true, hnext, if_neg Bool.false_ne_true]

lemma fetchGo_len (api : Nat → Int → Page) (L : Int) (hL : 0 < L) :
    ∀ (fuel : Nat) (fetched : List Contest) (diags : List (List Char))
      (offset : Nat) (trace : List (Nat × Int)),
      (fetched.length : Int) ≤ L →
      ∀ out, fetchGo api L fuel fetched diags offset trace = .ok out →
        (out.contests.length : Int) ≤ L := by
  intro fuel
  induction fuel with
  | zero =>
    intro fetched diags offset trace hlen out h
    rw [fetchGo_zero] at h
    simp only [Except.ok.injEq] at h
    rw [← h]
    exact hlen
  | succ fuel ih =>
    intro fetched diags offset trace hlen out h
    by_cases hcap : L ≠ 0 ∧ L - (fetched.length : Int) ≤ 0
    · rw [fetchGo_succ_cap api L fuel fetched diags offset trace hcap] at h
      simp only [Except.ok.injEq] at h
      rw [← h]
      exact hlen
    · have hlt : (fetched.length : Int) < L := by
        rcases not_and_or.mp hcap with hc | hc
        · exact absurd (by omega : L ≠ 0) hc
        · omega
      by_cases hempty : (api offset (pageLimit L fetched.length)).objects.isEmpty = true
      · rw [fetchGo_succ_empty api L fuel fetched diags offset trace hcap hempty] at h
        simp only [Except.ok.injEq] at h
        rw [← h]
        exact hlen
      · rcases hpl : pageLoop L fetched diags (api offset (pageLimit L fetched.length)).objects
          with e | ⟨f', d', early⟩
        · rw [fetchGo_succ_err api L fuel fetched diags offset trace hcap hempty hpl] at h
          cases h
        · have hbounds := pageLoop_len L hL _ fetched diags hlt f' d' early hpl
          cases early with
          | true =>
            rw [fetchGo_succ_early api L fuel fetched diags offset trace hcap hempty hpl] at h
            simp only [Except.ok.injEq] at h
            rw [← h]
            exact le_of_eq (hbounds.1 rfl)
          | false =>
            by_cases hnext : (api offset (pageLimit L fetched.length)).hasNext = true
            · rw [fetchGo_succ_cont api L fuel fetched diags offset trace hcap hempty hpl hnext] at h
              exact ih f' d' _ _ (le_of_lt (hbounds.2 rfl)) out h
            · rw [Bool.not_eq_true] at hnext
              rw [fetchGo_succ_noNext api L fuel fetched diags offset trace hcap hempty hpl hnext] at h
              simp only [Except.ok.injEq] at h
              rw [← h]
              exact le_of_lt (hbounds.2 rfl)

lemma pageLoop_allOk (L : Int) (hL : 0 < L) :
    ∀ (ps : List PFields) (fetched : List Contest) (diags : List (List Char)),
      (∀ p ∈ ps, (parse_contest p).toOption.isSome = true) →
      (fetched.length : Int) < L → L ≤ (fetched.length : Int) + ps.length →
      pageLoop L fetched diags ps
        = .ok (fetched ++ (oks ps).take (L - fetched.length).toNat, diags, true) := by
  intro ps
  induction ps with
  | nil =>
    intro fetched diags _ hlt hle
    exfalso
    simp only [List.length_nil, Nat.cast_zero, add_zero] at hle
    omega
  | cons p ps ih =>
    intro fetched diags hok hlt hle
    have hp := hok p (List.mem_cons_self p ps)
    rcases hparse : parse_contest p with e | c
    · rw [hparse] at hp
      simp [Except.toOption] at hp
    · have hoks : oks (p :: ps) = c :: oks ps := by
        simp [oks, hparse, Except.toOption]
      rw [pageLoop_cons_ok L fetched diags ps hparse]
      by_cases hcap : L ≠ 0 ∧ L ≤ ((fetched ++ [c]).length : Int)
      · rw [if_pos hcap]
        have h2 := hcap.2
        simp only [List.length_append, List.length_cons, List.length_nil] at h2
        push_cast at h2
        have hone : (L - (fetched.length : Int)).toNat = 1 := by omega
        rw [hoks, hone]
        simp [List.take_succ_cons]
      · rw [if_neg hcap]
        have hlt' : ((fetched ++ [c]).length : Int) < L := by
          rcases not_and_or.mp hcap with hc | hc
          · exact absurd (by omega : L ≠ 0) hc
          · simp only [List.length_append, List.length_cons, List.length_nil] at hc ⊢
            push_cast at hc ⊢
            omega
        have hle' : L ≤ ((fetched ++ [c]).length : Int) + ps.length := by
          simp only [List.length_append, List.length_cons, List.length_nil] at hle ⊢
          push_cast at hle ⊢
          omega
        rw [ih (fetched ++ [c]) diags (fun q hq => hok q (List.mem_cons_of_mem p hq)) hlt' hle']
        have hsub : (L - ((fetched ++ [c]).length : Int)).toNat + 1
            = (L - (fetched.length : Int)).toNat := by
          simp only [List.length_append, List.length_cons, List.length_nil]
          push_cast
          omega
        rw [hoks, ← hsub, List.take_succ_cons, List.append_assoc]
        rfl

lemma fetchGo_capFirst (api : Nat → Int → Page) (L : Int) (hL : 0 < L) (fuel : Nat)
    (fetched : List Contest) (diags : List (List Char)) (offset : Nat) (trace : List (Nat × Int))
    (hlen : (fetched.length : Int) < L)
    (hok : ∀ p ∈ (api offset (pageLimit L fetched.length)).objects,
      (parse_contest p).toOption.isSome = true)
    (hcount : L ≤ (fetched.length : Int)
      + (api offset (pageLimit L fetched.length)).objects.length) :
    fetchGo api L (fuel + 1) fetched diags offset trace
      = .ok ⟨fetched
              ++ (oks (api offset (pageLimit L fetched.length)).objects).take
                  (L - fetched.length).toNat,
            diags, trace ++ [(offset, pageLimit L fetched.length)], .cap⟩ := by
  have hcap : ¬(L ≠ 0 ∧ L - (fetched.length : Int) ≤ 0) := by
    intro hc
    omega
  have hne : (api offset (pageLimit L fetched.length)).objects ≠ [] := by
    intro h0
    rw [h0] at hcount
    simp only [List.length_nil, Nat.cast_zero, add_zero] at hcount
    omega
  have hempty : ¬(api offset (pageLimit L fetched.length)).objects.isEmpty = true := by
    simpa [List.isEmpty_iff] using hne
  exact fetchGo_succ_early api L fuel fetched diags offset trace hcap hempty
    (pageLoop_allOk L hL _ fetched diags hok hlen hcount)

lemma fetchGo_trace (api : Nat → Int → Page) (L : Int) :
    ∀ (fuel : Nat) (fetched : List Contest) (diags : List (List Char))
      (offset : Nat) (trace : List (Nat × Int)) (out : FetchOut),
      fetchGo api L fuel fetched diags offset trace = .ok out →
      ∃ tNew, out.trace = trace ++ tNew ∧ offsetChained api offset tNew := by
  intro fuel
  induction fuel with
  | zero =>
    intro fetched diags offset trace out h
    rw [fetchGo_zero] at h
    simp only [Except.ok.injEq] at h
    exact ⟨[], by rw [← h]; simp, trivial⟩
  | succ fuel ih =>
    intro fetched diags offset trace out h
    by_cases hcap : L ≠ 0 ∧ L - (fetched.length : Int) ≤ 0
    · rw [fetchGo_succ_cap api L fuel fetched diags offset trace hcap] at h
      simp only [Except.ok.injEq] at h
      exact ⟨[], by rw [← h]; simp, trivial⟩
    · by_cases hempty : (api offset (pageLimit L fetched.length)).objects.isEmpty = true
      · rw [fetchGo_succ_empty api L fuel fetched diags offset trace hcap hempty] at h
        simp only [Except.ok.injEq] at h
        exact ⟨[(offset, pageLimit L fetched.length)], by rw [← h], ⟨rfl, trivial⟩⟩
      · rcases hpl : pageLoop L fetched diags (api offset (pageLimit L fetched.length)).objects
          with e | ⟨f', d', early⟩
        · rw [fetchGo_succ_err api L fuel fetched diags offset trace hcap hempty hpl] at h
          cases h
        · cases early with
          | true =>
            rw [fetchGo_succ_early api L fuel fetched diags offset trace hcap hempty hpl] at h
            simp only [Except.ok.injEq] at h
            exact ⟨[(offset, pageLimit L fetched.length)], by rw [← h], ⟨rfl, trivial⟩⟩
          | false =>
            by_cases hnext : (api offset (pageLimit L fetched.length)).hasNext = true
            · rw [fetchGo_succ_cont api L fuel fetched diags offset trace hcap hempty hpl hnext] at h
              rcases ih f' d' _ _ out h with ⟨t2, htr, hch⟩
              refine ⟨(offset, pageLimit L fetched.length) :: t2, ?_, rfl, hch⟩
              rw [htr, List.append_assoc]
              rfl
            · rw [Bool.not_eq_true] at hnext
              rw [fetchGo_succ_noNext api L fuel fetched diags offset trace hcap hempty hpl hnext] at h
              simp only [Except.ok.injEq] at h
              exact ⟨[(offset, pageLimit L fetched.length)], by rw [← h], ⟨rfl, trivial⟩⟩

lemma pageLoop_benign_unlimited :
    ∀ (ps : List PFields) (fetched : List Contest) (diags : List (List Char)),
      (∀ p ∈ ps, severeBool p = false) →
      pageLoop 0 fetched diags ps = .ok (fetched ++ oks ps, diags ++ skipMsgs ps, false) := by
  intro ps
  induction ps with
  | nil =>
    intro fetched diags _
    rw [pageLoop_nil]
    simp [oks, skipMsgs]
  | cons p ps ih =>
    intro fetched diags hben
    have hbp := hben p (List.mem_cons_self p ps)
    have hbrest : ∀ q ∈ ps, severeBool q = false :=
      fun q hq => hben q (List.mem_cons_of_mem p hq)
    rcases hparse : parse_contest p with e | c
    · rcases e with m | k | m
      · rw [pageLoop_cons_val 0 fetched diags ps hparse, ih fetched (diags ++ [skipMsg m]) hbrest]
        have h1 : oks (p :: ps) = oks ps := by simp [oks, hparse, Except.toOption]
        have h2 : skipMsgs (p :: ps) = skipMsg m :: skipMsgs ps := by simp [skipMsgs, hparse]
        rw [h1, h2, List.append_assoc]
        rfl
      · exfalso
        rw [severeBool, hparse] at hbp
        cases hbp
      · exfalso
        rw [severeBool, hparse] at hbp
        cases hbp
    · rw [pageLoop_cons_ok 0 fetched diags ps hparse, if_neg (by simp),
        ih (fetched ++ [c]) diags hbrest]
      have h1 : oks (p :: ps) = c :: oks ps := by simp [oks, hparse, Except.toOption]
      have h2 : skipMsgs (p :: ps) = skipMsgs ps := by simp [skipMsgs, hparse]
      rw [h1, h2, List.append_assoc]
      rfl

lemma fetchGo_unlimited (api : Nat → Int → Page)
    (hben : ∀ o l, ∀ p ∈ (api o l).objects, severeBool p = false) :
    ∀ (fuel : Nat) (fetched : List Contest) (diags : List (List Char))
      (offset : Nat) (trace : List (Nat × Int)) (out : FetchOut),
      fetchGo api 0 fuel fetched diags offset trace = .ok out →
        out.reason ≠ .cap
          ∧ ∃ tNew, out.trace = trace ++ tNew
              ∧ out.contests
                  = fetched ++ (tNew.map (fun ol => oks (api ol.1 ol.2).objects)).flatten := by
  intro fuel
  induction fuel with
  | zero =>
    intro fetched diags offset trace out h
    rw [fetchGo_zero] at h
    simp only [Except.ok.injEq] at h
    rw [← h]
    exact ⟨(fun hc => nomatch hc), [], by simp, by simp⟩
  | succ fuel ih =>
    intro fetched diags offset trace out h
    have hcap : ¬((0 : Int) ≠ 0 ∧ (0 : Int) - (fetched.length : Int) ≤ 0) := by simp
    by_cases hempty : (api offset (pageLimit 0 fetched.length)).objects.isEmpty = true
    · rw [fetchGo_succ_empty api 0 fuel fetched diags offset trace hcap hempty] at h
      simp only [Except.ok.injEq] at h
      rw [← h]
      refine ⟨(fun hc => nomatch hc), [(offset, pageLimit 0 fetched.length)], rfl, ?_⟩
      simp [oks, List.isEmpty_iff.mp hempty]
    · have hpl := pageLoop_benign_unlimited
        (api offset (pageLimit 0 fetched.length)).objects fetched diags
        (hben offset (pageLimit 0 fetched.length))
      by_cases hnext : (api offset (pageLimit 0 fetched.length)).hasNext = true
      · rw [fetchGo_succ_cont api 0 fuel fetched diags offset trace hcap hempty hpl hnext] at h
        rcases ih _ _ _ _ out h with ⟨hreason, t2, htr, hcont⟩
        refine ⟨hreason, (offset, pageLimit 0 fetched.length) :: t2, ?_, ?_⟩
        · rw [htr, List.append_assoc]
          rfl
        · rw [hcont, List.map_cons, List.flatten_cons, List.append_assoc]
      · rw [Bool.not_eq_true] at hnext
        rw [fetchGo_succ_noNext api 0 fuel fetched diags offset trace hcap hempty hpl hnext] at h
        simp only [Except.ok.injEq] at h
        rw [← h]
        refine ⟨(fun hc => nomatch hc), [(offset, pageLimit 0 fetched.length)], rfl, ?_⟩
        simp

lemma fetchGo_unlimited_isOk (api : Nat → Int → Page)
    (hben : ∀ o l, ∀ p ∈ (api o l).objects, severeBool p = false) :
    ∀ (fuel : Nat) (fetched : List Contest) (diags : List (List Char))
      (offset : Nat) (trace : List (Nat × Int)),
      (fetchGo api 0 fuel fetched diags offset trace).isOk = true := by
  intro fuel
  induction fuel with
  | zero =>
    intro fetched diags offset trace
    rw [fetchGo_zero]
    rfl
  | succ fuel ih =>
    intro fetched diags offset trace
    have hcap : ¬((0 : Int) ≠ 0 ∧ (0 : Int) - (fetched.length : Int) ≤ 0) := by simp
    by_cases hempty : (api offset (pageLimit 0 fetched.length)).objects.isEmpty = true
    · rw [fetchGo_succ_empty api 0 fuel fetched diags offset trace hcap hempty]
      rfl
    · have hpl := pageLoop_benign_unlimited
        (api offset (pageLimit 0 fetched.length)).objects fetched diags
        (hben offset (pageLimit 0 fetched.length))
      by_cases hnext : (api offset (pageLimit 0 fetched.length)).hasNext = true
      · rw [fetchGo_succ_cont api 0 fuel fetched diags offset trace hcap hempty hpl hnext]
        exact ih _ _ _ _
      · rw [Bool.not_eq_true] at hnext
        rw [fetchGo_succ_noNext api 0 fuel fetched diags offset trace hcap hempty hpl hnext]
        rfl

/-- Claim C3: with a positive `per_resource_limit` the fetch returns at most
that many contests and, when the first page already supplies the cap, returns
exactly the capped prefix after a single request; every run's request trace
advances the offset by the number of objects each page returned; and with
`per_resource_limit = 0` the cap never ends the run — it stops only on an
empty page, a falsy `meta.next`, or fuel, having collected every parseable
record of every page it requested. -/
theorem fetch_pagination_c3 :
    ∀ (api : Nat → Int → Page) (L : Int) (fuel : Nat),
      (0 < L → ∀ out, fetch_contests_for_resource api L fuel = .ok out →
          (out.contests.length : Int) ≤ L)
        ∧ (0 < L → 1 ≤ fuel →
            (∀ p ∈ (api 0 (pageLimit L 0)).objects, (parse_contest p).toOption.isSome = true) →
            L ≤ ((api 0 (pageLimit L 0)).objects.length : Int) →
            fetch_contests_for_resource api L fuel
              = .ok ⟨(oks (api 0 (pageLimit L 0)).objects).take L.toNat, [],
                    [(0, pageLimit L 0)], .cap⟩)
        ∧ (∀ out, fetch_contests_for_resource api L fuel = .ok out →
            offsetChained api 0 out.trace)
        ∧ (L = 0 →
            (∀ o l, ∀ p ∈ (api o l).objects, severeBool p = false) →
            ∀ out, fetch_contests_for_resource api L fuel = .ok out →
              out.reason ≠ .cap
                ∧ out.contests
                    = (out.trace.map (fun ol => oks (api ol.1 ol.2).objects)).flatten) := by
  intro api L fuel
  refine ⟨?_, ?_, ?_, ?_⟩
  · intro hL out h
    exact fetchGo_len api L hL fuel [] [] 0 [] (by simpa using hL.le) out h
  · intro hL hfuel hok hcount
    cases fuel with
    | zero => exact absurd hfuel (by omega)
    | succ k =>
      have h := fetchGo_capFirst api L hL k [] [] 0 []
        (by simpa using hL) (by simpa using hok) (by simpa using hcount)
      simpa using h
  · intro out h
    rcases fetchGo_trace api L fuel [] [] 0 [] out h with ⟨t, htr, hch⟩
    rw [htr]
    simpa using hch
  · intro hL0 hben out h
    subst hL0
    rcases fetchGo_unlimited api hben fuel [] [] 0 [] out h with ⟨hr, t, htr, hc⟩
    refine ⟨hr, ?_⟩
    rw [hc, htr]
    simp

/-- A parseable contest payload with id `n`. -/
def goodPayload (n : Int) : PFields :=
  .cons (lstr "id") (.pint n)
    (.cons (lstr "event") (.pstr (lstr "Weekly Contest"))
      (.cons (lstr "start") (.pstr (lstr "2025-06-01T10:00:00"))
        (.cons (lstr "end") (.pstr (lstr "2025-06-01T12:00:00")) .nil)))

/-- A concrete API for the C3 witness: every request returns the same page of
three parseable payloads (more than the requested limit) and signals further
pages. -/
def capiW : Nat → Int → Page :=
  fun _ _ => ⟨[goodPayload 1, goodPayload 2, goodPayload 3], true⟩

/-- Witness for C3: with `per_resource_limit = 2` against an API whose pages
hold 3 records, the fetch issues exactly one request, stops on the cap, and
returns the first 2 parsed contests. -/
theorem fetch_pagination_c3_witness :
    fetch_contests_for_resource capiW 2 3
      = .ok ⟨(oks (capiW 0 (pageLimit 2 0)).objects).take (2 : Int).toNat, [],
            [(0, pageLimit 2 0)], .cap⟩ :=
  (fetch_pagination_c3 capiW 2 3).2.1 (by decide) (by decide) (by decide) (by decide)

/-! ### C1: per-record parse failures during a fetch -/

/-- A payload with no `id` key at all: `payload["id"]` raises `KeyError`,
which the loop's `except ValueError` does not catch. -/
def noIdPayload : PFields :=
  .cons (lstr "event") (.pstr (lstr "Mystery Round"))
    (.cons (lstr "start") (.pstr (lstr "2025-06-01T10:00:00"))
      (.cons (lstr "end") (.pstr (lstr "2025-06-01T12:00:00")) .nil))

/-- A payload whose `start` timestamp does not parse: `parse_iso_datetime`
raises `ValueError`, which the loop catches and skips. -/
def badTimePayload : PFields :=
  .cons (lstr "id") (.pint 9)
    (.cons (lstr "event") (.pstr (lstr "Broken Round"))
      (.cons (lstr "start") (.pstr (lstr "soon"))
        (.cons (lstr "end") (.pstr (lstr "2025-06-01T12:00:00")) .nil)))

/-- A concrete API for the C1 counterexample: one page whose middle payload
is missing the `id` key, followed by another parseable payload. -/
def capiC1 : Nat → Int → Page :=
  fun o _ => if o = 0 then ⟨[goodPayload 1, noIdPayload, goodPayload 2], false⟩
             else ⟨[], false⟩

/-- Counterexample to claim C1 as stated: a payload with a missing required
field (`id`) does not get dropped — its `KeyError` escapes the
`except ValueError` clause and aborts the whole fetch for the resource
filter, discarding the already-parsed record and never processing the rest
of the page, even though the remaining payload is parseable. -/
theorem fetch_parse_abort_counterexample_c1 :
    fetch_contests_for_resource capiC1 0 5 = .error (.keyError (lstr "id"))
      ∧ (parse_contest (goodPayload 2)).toOption.isSome = true := by
  constructor
  · rfl
  · decide

/-- Claim C1 (amended): a payload whose parse fails with a `ValueError`
(malformed id string, missing or unparseable start/end timestamp) is dropped
with one diagnostic while the remaining payloads of that page and of
subsequent pages are still processed, and such failures never abort the
fetch; but a payload whose parse raises `KeyError` (missing `id` key) aborts
the whole fetch for that resource filter. -/
theorem fetch_parse_skip_c1 :
    (∀ (ps : List PFields) (fetched : List Contest) (diags : List (List Char)),
        (∀ p ∈ ps, severeBool p = false) →
        pageLoop 0 fetched diags ps = .ok (fetched ++ oks ps, diags ++ skipMsgs ps, false))
      ∧ (∀ (api : Nat → Int → Page) (fuel : Nat),
          (∀ o l, ∀ p ∈ (api o l).objects, severeBool p = false) →
          (fetch_contests_for_resource api 0 fuel).isOk = true)
      ∧ (∀ (L : Int) (fetched : List Contest) (diags : List (List Char))
            (p : PFields) (ps : List PFields) (key : List Char),
          parse_contest p = .error (.keyError key) →
          pageLoop L fetched diags (p :: ps) = .error (.keyError key)) :=
  ⟨pageLoop_benign_unlimited,
   fun api fuel hben => fetchGo_unlimited_isOk api hben fuel [] [] 0 [],
   fun L fetched diags _ ps _ hp => pageLoop_cons_key L fetched diags ps hp⟩

/-- Witness for C1: a page mixing two parseable payloads around one with a
bad timestamp — the bad record is dropped with one diagnostic and both good
records survive. -/
theorem fetch_parse_skip_c1_witness :
    pageLoop 0 [] [] [goodPayload 1, badTimePayload, goodPayload 2]
      = .ok (oks [goodPayload 1, badTimePayload, goodPayload 2],
             skipMsgs [goodPayload 1, badTimePayload, goodPayload 2], false) := by
  have h := fetch_parse_skip_c1.1 [goodPayload 1, badTimePayload, goodPayload 2] [] []
    (by decide)
  simpa using h

/-! ### C10: the title invariant -/

/-- A payload whose `event` field is a whitespace-only string: truthy, so it
is selected, but `strip()` empties it. -/
def wsEventPayload : PFields :=
  .cons (lstr "id") (.pint 7)
    (.cons (lstr "event") (.pstr (lstr " "))
      (.cons (lstr "start") (.pstr (lstr "2025-06-01T10:00:00"))
        (.cons (lstr "end") (.pstr (lstr "2025-06-01T12:00:00")) .nil)))

/-- A payload with neither `event` nor `title`: the synthesized
`"Contest <id>"` fallback applies. -/
def noTitlePayload : PFields :=
  .cons (lstr "id") (.pint 5)
    (.cons (lstr "start") (.pstr (lstr "2025-06-01T10:00:00"))
      (.cons (lstr "end") (.pstr (lstr "2025-06-01T12:00:00")) .nil))

/-- Counterexample to claim C10 as stated: `parse_contest` accepts a payload
whose `event` is the whitespace-only string `" "` (truthy, so no fallback
fires) and produces a contest whose `title` is the empty string. -/
theorem parse_title_empty_counterexample_c10 :
    (parse_contest wsEventPayload).toOption.map Contest.title = some [] := by
  decide

lemma dropWhile_append_singleton_ne_nil (p : Char → Bool) (c : Char) (hc : p c = false) :
    ∀ l : List Char, (l ++ [c]).dropWhile p ≠ [] := by
  intro l
  induction l with
  | nil => simp [List.dropWhile, hc]
  | cons a l ih =>
    rw [List.cons_append, List.dropWhile_cons]
    by_cases ha : p a = true
    · simpa [ha] using ih
    · simp [ha]

lemma pyStripChars_cons_ne_nil (c : Char) (t : List Char) (hc : isPyWs c = false) :
    pyStripChars (c :: t) ≠ [] := by
  rw [pyStripChars, List.dropWhile_cons, if_neg (by simp [hc])]
  intro hnil
  have := congrArg List.reverse hnil
  rw [List.reverse_reverse] at this
  have hrev : ((c :: t).reverse).dropWhile isPyWs = [] := by simpa using this
  rw [List.reverse_cons] at hrev
  exact dropWhile_append_singleton_ne_nil isPyWs c hc t.reverse hrev

/-- Claim C10 (amended): for every payload `parse_contest` accepts, `title`
is the stripped string form of the fallback chain (`event`, else `title`,
else the synthesized `"Contest <id>"`); when both `event` and `title` are
absent or falsy the synthesized fallback makes it non-empty, but a truthy
whitespace-only `event` or `title` strips to an empty title. -/
theorem parse_title_c10 :
    ∀ (payload : PFields) (c : Contest), parse_contest payload = .ok c →
      c.title = pyStripChars (pyStr (orPV (pGet payload (lstr "event"))
          (orPV (pGet payload (lstr "title"))
            (.pstr (lstr "Contest " ++ intRepr c.contest_id)))))
        ∧ (pyTruthy (pGet payload (lstr "event")) = false →
            pyTruthy (pGet payload (lstr "title")) = false → c.title ≠ []) := by
  intro payload c h
  rw [parse_contest] at h
  rcases h1 : pIndex payload (lstr "id") with e | idv
  · simp only [h1] at h
    cases h
  simp only [h1] at h
  rcases h2 : pyInt idv with e | cid
  · simp only [h2] at h
    cases h
  simp only [h2] at h
  rcases h3 : parse_iso_datetime (pyStr (pGet payload (lstr "start"))) with e | start
  · simp only [h3] at h
    cases h
  simp only [h3] at h
  rcases h4 : parse_iso_datetime (pyStr (pGet payload (lstr "end"))) with e | end_
  · simp only [h4] at h
    cases h
  simp only [h4] at h
  rcases h5 : pyInt (orPV (pGet payload (lstr "resource_id"))
      (orPV (pGet (resourceInfoOf (pGet payload (lstr "resource"))) (lstr "id")) (.pint 0)))
    with e | rid
  · simp only [h5] at h
    cases h
  simp only [h5, Except.ok.injEq] at h
  subst h
  refine ⟨rfl, ?_⟩
  intro hev hti
  show pyStripChars (pyStr (orPV (pGet payload (lstr "event"))
    (orPV (pGet payload (lstr "title")) (.pstr (lstr "Contest " ++ intRepr cid))))) ≠ []
  simp only [orPV, hev, hti, Bool.false_eq_true, if_false]
  rw [pyStr]
  exact pyStripChars_cons_ne_nil 'C' _ (by decide)

/-- Witness for C10: a payload with neither `event` nor `title` parses to a
contest titled by the non-empty synthesized fallback. -/
theorem parse_title_c10_witness : lstr "Contest 5" ≠ ([] : List Char) := by
  have hp : parse_contest noTitlePayload
      = .ok ⟨5, lstr "Contest 5", ⟨2025, 6, 1, 10, 0, 0, some 0⟩,
            ⟨2025, 6, 1, 12, 0, 0, some 0⟩, [], 0, lstr "Resource 0"⟩ := by rfl
  exact (parse_title_c10 noTitlePayload _ hp).2 (by decide) (by decide)

end Clist
